import Mathlib

/-!
Verification development for the pathfinder renderer core
(`src/renderer/src/allocator.rs`, `src/renderer/src/tiles.rs`,
`src/renderer/src/gpu_data.rs`).

The Rust code is shallowly embedded: `i32` values become `Int` (the
claims under verification keep every arithmetic value far inside the
`i32` range, so two's-complement wrap never fires on them), `u32`/`u16`
sizes become `Nat`, and the explicit casts of the source (`as u32`,
`as i8`, `as i32` from `f32`) are modelled by explicit functions.
Panicking paths (`expect`, `unreachable!`) are modelled by `Option`,
with `none` standing for the panic.
-/

/-- Model of `pathfinder_geometry::rect::RectI` as used by the allocator:
an origin and a size, all `i32`. `w`/`h` are `size.x`/`size.y`. -/
structure RectI where
  ox : Int
  oy : Int
  w : Int
  h : Int
deriving Repr, DecidableEq

/-- Model of `PaintPageId` (a `u32` page index) together with a rect:
`TextureLocation` from allocator.rs. -/
structure TextureLocation where
  page : Nat
  rect : RectI
deriving Repr, DecidableEq

/-- Model of `enum TreeNode` from allocator.rs: an empty leaf, a full leaf,
or a parent whose children are, in order, top left, top right, bottom left
and bottom right. -/
inductive TreeNode where
  | emptyLeaf : TreeNode
  | fullLeaf : TreeNode
  | parent : TreeNode → TreeNode → TreeNode → TreeNode → TreeNode
deriving Repr, DecidableEq

/-- Model of the Rust cast `x as u32` for an `i32` value `x`:
reduce modulo 2^32 into `[0, 2^32)`. -/
def i32ToU32 (x : Int) : Nat :=
  (x % (2 ^ 32 : Int)).toNat

/-- Model of Rust's `u32::next_power_of_two`: the least power of two that is
`≥ n` (and `1` for `n = 0`), expressed with the ceiling logarithm. This is
the documented behaviour for `n ≤ 2^31`; the overflowing inputs above `2^31`
(debug panic / wrap to `0` in release builds) are outside every claim's
range and are not modelled. -/
def u32NextPowerOfTwo (n : Nat) : Nat :=
  2 ^ Nat.clog 2 n

/-- The check `kids.iter().all(|kid| matches EmptyLeaf)` used by
`TreeNode::merge_if_necessary`. -/
def TreeNode.isEmptyLeaf : TreeNode → Bool
  | .emptyLeaf => true
  | _ => false

/-- Model of `TreeNode::merge_if_necessary`: a parent whose four children are
all `EmptyLeaf` collapses back to `EmptyLeaf`; anything else is unchanged. -/
def TreeNode.mergeIfNecessary (t : TreeNode) : TreeNode :=
  match t with
  | .parent a b c d =>
    if a.isEmptyLeaf && b.isEmptyLeaf && c.isEmptyLeaf && d.isEmptyLeaf then .emptyLeaf
    else .parent a b c d
  | t => t

/-- Termination measure helper: the number of `parent` nodes, plus one per
node, so that each child weighs strictly less than its parent. -/
def TreeNode.weight : TreeNode → Nat
  | .emptyLeaf => 0
  | .fullLeaf => 0
  | .parent a b c d => a.weight + b.weight + c.weight + d.weight + 1

/-- Model of `TreeNode::allocate(origin, this_size, requested_size)`
(allocator.rs lines 166-227). The Rust method mutates `self` and returns
`Option<RectI>`; here the new tree is returned alongside. A full leaf or a
too-small node fails; an empty leaf of exactly the requested size becomes a
full leaf; otherwise an empty leaf splits into four empty children and, like
an existing parent, tries the children in top-left, top-right, bottom-left,
bottom-right order, returning the first success; when all four fail it calls
`merge_if_necessary` and fails. -/
def TreeNode.allocate : TreeNode → Int → Int → Nat → Nat → Option RectI × TreeNode
  | .fullLeaf, _, _, _, _ => (none, .fullLeaf)
  | .emptyLeaf, ox, oy, size, req =>
    if h1 : size < req then (none, .emptyLeaf)
    else if h2 : size = req then
      (some ⟨ox, oy, (size : Int), (size : Int)⟩, .fullLeaf)
    else
      match TreeNode.allocate .emptyLeaf ox oy (size / 2) req with
      | (some r, a1) => (some r, .parent a1 .emptyLeaf .emptyLeaf .emptyLeaf)
      | (none, a1) =>
        match TreeNode.allocate .emptyLeaf (ox + ((size / 2 : Nat) : Int)) oy (size / 2) req with
        | (some r, b1) => (some r, .parent a1 b1 .emptyLeaf .emptyLeaf)
        | (none, b1) =>
          match TreeNode.allocate .emptyLeaf ox (oy + ((size / 2 : Nat) : Int)) (size / 2) req with
          | (some r, c1) => (some r, .parent a1 b1 c1 .emptyLeaf)
          | (none, c1) =>
            match TreeNode.allocate .emptyLeaf (ox + ((size / 2 : Nat) : Int)) (oy + ((size / 2 : Nat) : Int)) (size / 2) req with
            | (some r, d1) => (some r, .parent a1 b1 c1 d1)
            | (none, d1) => (none, TreeNode.mergeIfNecessary (.parent a1 b1 c1 d1))
  | .parent a b c d, ox, oy, size, req =>
    if h1 : size < req then (none, .parent a b c d)
    else
      match TreeNode.allocate a ox oy (size / 2) req with
      | (some r, a1) => (some r, .parent a1 b c d)
      | (none, a1) =>
        match TreeNode.allocate b (ox + ((size / 2 : Nat) : Int)) oy (size / 2) req with
        | (some r, b1) => (some r, .parent a1 b1 c d)
        | (none, b1) =>
          match TreeNode.allocate c ox (oy + ((size / 2 : Nat) : Int)) (size / 2) req with
          | (some r, c1) => (some r, .parent a1 b1 c1 d)
          | (none, c1) =>
            match TreeNode.allocate d (ox + ((size / 2 : Nat) : Int)) (oy + ((size / 2 : Nat) : Int)) (size / 2) req with
            | (some r, d1) => (some r, .parent a1 b1 c1 d1)
            | (none, d1) => (none, TreeNode.mergeIfNecessary (.parent a1 b1 c1 d1))
termination_by t _ _ size _ => 2 * size + t.weight
decreasing_by
  all_goals simp only [TreeNode.weight]
  all_goals omega

/-- Model of `TreeNode::free(this_origin, this_size, requested_origin,
requested_size)` (allocator.rs lines 229-272). `none` models the
`unreachable!()` panic that fires when the walk meets a leaf before
reaching the requested size. -/
def TreeNode.free : TreeNode → Int → Int → Nat → Int → Int → Nat → Option TreeNode
  | .parent a b c d, ox, oy, size, rx, ry, req =>
    if size ≤ req then
      if size = req ∧ ox = rx ∧ oy = ry then some .emptyLeaf
      else some (.parent a b c d)
    else
      if ry < oy + ((size / 2 : Nat) : Int) then
        if rx < ox + ((size / 2 : Nat) : Int) then
          (TreeNode.free a ox oy (size / 2) rx ry req).map fun a1 =>
            TreeNode.mergeIfNecessary (.parent a1 b c d)
        else
          (TreeNode.free b (ox + ((size / 2 : Nat) : Int)) oy (size / 2) rx ry req).map fun b1 =>
            TreeNode.mergeIfNecessary (.parent a b1 c d)
      else
        if rx < ox + ((size / 2 : Nat) : Int) then
          (TreeNode.free c ox (oy + ((size / 2 : Nat) : Int)) (size / 2) rx ry req).map fun c1 =>
            TreeNode.mergeIfNecessary (.parent a b c1 d)
        else
          (TreeNode.free d (ox + ((size / 2 : Nat) : Int)) (oy + ((size / 2 : Nat) : Int)) (size / 2) rx ry req).map fun d1 =>
            TreeNode.mergeIfNecessary (.parent a b c d1)
  | t, ox, oy, size, rx, ry, req =>
    if size ≤ req then
      if size = req ∧ ox = rx ∧ oy = ry then some .emptyLeaf else some t
    else none

/-- Model of `struct TextureAtlasAllocator { root, size }`. -/
structure TextureAtlasAllocator where
  root : TreeNode
  size : Nat
deriving Repr, DecidableEq

/-- Model of `TextureAtlasAllocator::with_length`. -/
def TextureAtlasAllocator.withLength (length : Nat) : TextureAtlasAllocator :=
  ⟨.emptyLeaf, length⟩

/-- Model of `TextureAtlasAllocator::allocate(requested_size)`: round the
larger requested component up to a power of two and allocate at the root,
whose origin is `Vector2I::default()` = (0, 0). -/
def TextureAtlasAllocator.allocate (a : TextureAtlasAllocator) (x y : Int) :
    Option RectI × TextureAtlasAllocator :=
  ((TreeNode.allocate a.root 0 0 a.size (u32NextPowerOfTwo (i32ToU32 (max x y)))).1,
    ⟨(TreeNode.allocate a.root 0 0 a.size (u32NextPowerOfTwo (i32ToU32 (max x y)))).2,
      a.size⟩)

/-- Model of `TextureAtlasAllocator::free(rect)`: the requested length is
`rect.width() as u32` and the requested origin is `rect.origin()`. -/
def TextureAtlasAllocator.free (a : TextureAtlasAllocator) (r : RectI) :
    Option TextureAtlasAllocator :=
  (TreeNode.free a.root 0 0 a.size r.ox r.oy (i32ToU32 r.w)).map fun root1 =>
    ⟨root1, a.size⟩

/-- Model of `TextureAtlasAllocator::is_empty`. -/
def TextureAtlasAllocator.isEmpty (a : TextureAtlasAllocator) : Bool :=
  a.root.isEmptyLeaf

/-- Run a sequence of `allocate` calls (as the quickcheck test in
allocator.rs does), collecting the successfully returned rects in order. -/
def TextureAtlasAllocator.allocAll (a : TextureAtlasAllocator) :
    List (Int × Int) → List RectI × TextureAtlasAllocator
  | [] => ([], a)
  | (x, y) :: rest =>
    match a.allocate x y with
    | (some r, a1) => (r :: (a1.allocAll rest).1, (a1.allocAll rest).2)
    | (none, a1) => a1.allocAll rest

/-- Run a sequence of `free` calls; `none` models a panic in any of them. -/
def TextureAtlasAllocator.freeAll (a : TextureAtlasAllocator) :
    List RectI → Option TextureAtlasAllocator
  | [] => some a
  | r :: rest =>
    match a.free r with
    | some a1 => a1.freeAll rest
    | none => none

/-- Model of `ATLAS_TEXTURE_LENGTH` from allocator.rs. -/
def ATLAS_TEXTURE_LENGTH : Nat := 1024

/-- Model of `enum TexturePageAllocator`. -/
inductive TexturePageAllocator where
  | atlas : TextureAtlasAllocator → TexturePageAllocator
  | image : Int → Int → TexturePageAllocator
  | renderTarget : Int → Int → Nat → TexturePageAllocator
deriving Repr, DecidableEq

/-- Model of `struct TextureAllocator { pages }`. -/
structure TextureAllocator where
  pages : List TexturePageAllocator
deriving Repr, DecidableEq

/-- Model of `TextureAllocator::allocate_image`. -/
def TextureAllocator.allocateImage (ta : TextureAllocator) (x y : Int) :
    TextureLocation × TextureAllocator :=
  (⟨ta.pages.length, ⟨0, 0, x, y⟩⟩, ⟨ta.pages ++ [.image x y]⟩)

/-- The page loop of `TextureAllocator::allocate`: try each existing page in
order (skipping `Image` and `RenderTarget` pages), keeping any mutation the
attempt made to an atlas page, and return the first successful location. -/
def tryAtlasPages (x y : Int) :
    List TexturePageAllocator → Nat →
    Option (TextureLocation × List TexturePageAllocator)
  | [], _ => none
  | .atlas a :: rest, i =>
    match a.allocate x y with
    | (some rect, a1) => some (⟨i, rect⟩, .atlas a1 :: rest)
    | (none, a1) =>
      (tryAtlasPages x y rest (i + 1)).map fun pr => (pr.1, .atlas a1 :: pr.2)
  | p :: rest, i =>
    (tryAtlasPages x y rest (i + 1)).map fun pr => (pr.1, p :: pr.2)

/-- Model of `TextureAllocator::allocate` (allocator.rs lines 62-88):
oversize requests get their own `Image` page; otherwise each existing atlas
page is tried in order; otherwise a fresh atlas page of length
`ATLAS_TEXTURE_LENGTH` is appended and used. `none` models the
`expect("Allocation failed!")` panic on that fresh page. -/
def TextureAllocator.allocate (ta : TextureAllocator) (x y : Int) :
    Option (TextureLocation × TextureAllocator) :=
  if (ATLAS_TEXTURE_LENGTH : Int) < x ∨ (ATLAS_TEXTURE_LENGTH : Int) < y then
    some (ta.allocateImage x y)
  else
    match tryAtlasPages x y ta.pages 0 with
    | some (loc, pages1) => some (loc, ⟨pages1⟩)
    | none =>
      match (TextureAtlasAllocator.withLength ATLAS_TEXTURE_LENGTH).allocate x y with
      | (some rect, a1) =>
        some (⟨ta.pages.length, rect⟩, ⟨ta.pages ++ [.atlas a1]⟩)
      | (none, _) => none

/-! ### Quadtree invariants and the multiset of full leaves -/

/-- Whether a subtree holds at least one `FullLeaf`. -/
def TreeNode.containsFull : TreeNode → Bool
  | .emptyLeaf => false
  | .fullLeaf => true
  | .parent a b c d =>
    a.containsFull || b.containsFull || c.containsFull || d.containsFull

/-- The spec's invariant "a node is `EmptyLeaf` iff no descendant leaf is
Full", kept by `merge_if_necessary`: below every `parent` there is a full
leaf, recursively. -/
def TreeNode.wellMerged : TreeNode → Bool
  | .emptyLeaf => true
  | .fullLeaf => true
  | .parent a b c d =>
    (a.containsFull || b.containsFull || c.containsFull || d.containsFull) &&
      a.wellMerged && b.wellMerged && c.wellMerged && d.wellMerged

/-- The children of a node are each well merged (trivially true at a leaf). -/
def TreeNode.childrenWellMerged : TreeNode → Bool
  | .parent a b c d =>
    a.wellMerged && b.wellMerged && c.wellMerged && d.wellMerged
  | _ => true

/-- Every full leaf sits at a node of positive size (sizes halve at each
`parent` level, starting from the atlas length). -/
def TreeNode.sized : TreeNode → Nat → Bool
  | .emptyLeaf, _ => true
  | .fullLeaf, size => size != 0
  | .parent a b c d, size =>
    a.sized (size / 2) && b.sized (size / 2) && c.sized (size / 2) &&
      d.sized (size / 2)

/-- The multiset of full leaves of a subtree spanning the square of side
`size` at `(ox, oy)`, each as `(x, y, side)`. Child origins and sizes follow
`TreeNode::allocate` and `TreeNode::free`. -/
def TreeNode.fullLeaves : TreeNode → Int → Int → Nat → Multiset (Int × Int × Nat)
  | .emptyLeaf, _, _, _ => 0
  | .fullLeaf, ox, oy, size => {(ox, oy, size)}
  | .parent a b c d, ox, oy, size =>
    a.fullLeaves ox oy (size / 2) +
      b.fullLeaves (ox + ((size / 2 : Nat) : Int)) oy (size / 2) +
      c.fullLeaves ox (oy + ((size / 2 : Nat) : Int)) (size / 2) +
      d.fullLeaves (ox + ((size / 2 : Nat) : Int)) (oy + ((size / 2 : Nat) : Int)) (size / 2)

/-- A leaf record lies inside the square of side `size` at `(ox, oy)`. -/
def inRegion (ox oy : Int) (size : Nat) (e : Int × Int × Nat) : Prop :=
  ox ≤ e.1 ∧ e.1 + (e.2.2 : Int) ≤ ox + (size : Int) ∧
    oy ≤ e.2.1 ∧ e.2.1 + (e.2.2 : Int) ≤ oy + (size : Int)

/-- Two leaf records describe non-overlapping squares. -/
def tripleDisjoint (e f : Int × Int × Nat) : Prop :=
  e.1 + (e.2.2 : Int) ≤ f.1 ∨ f.1 + (f.2.2 : Int) ≤ e.1 ∨
    e.2.1 + (e.2.2 : Int) ≤ f.2.1 ∨ f.2.1 + (f.2.2 : Int) ≤ e.2.1

/-- Two rects do not overlap (their half-open pixel regions are disjoint). -/
def RectI.disjointWith (r s : RectI) : Prop :=
  r.ox + r.w ≤ s.ox ∨ s.ox + s.w ≤ r.ox ∨ r.oy + r.h ≤ s.oy ∨ s.oy + s.h ≤ r.oy

theorem tripleDisjoint_symm {e f : Int × Int × Nat} (h : tripleDisjoint e f) :
    tripleDisjoint f e := by
  rcases h with h | h | h | h <;> simp [tripleDisjoint] <;> omega

theorem isEmptyLeaf_iff (t : TreeNode) : t.isEmptyLeaf = true ↔ t = .emptyLeaf := by
  cases t <;> simp [TreeNode.isEmptyLeaf]

theorem containsFull_iff (t : TreeNode) :
    ∀ ox oy size, t.containsFull = true ↔ t.fullLeaves ox oy size ≠ 0 := by
  induction t with
  | emptyLeaf => simp [TreeNode.containsFull, TreeNode.fullLeaves]
  | fullLeaf => simp [TreeNode.containsFull, TreeNode.fullLeaves]
  | parent a b c d iha ihb ihc ihd =>
    intro ox oy size
    constructor
    · intro h hz
      simp only [TreeNode.fullLeaves] at hz
      rw [add_eq_zero, add_eq_zero, add_eq_zero] at hz
      obtain ⟨⟨⟨hza, hzb⟩, hzc⟩, hzd⟩ := hz
      simp only [TreeNode.containsFull, Bool.or_eq_true] at h
      rcases h with ((h | h) | h) | h
      · exact (iha ox oy (size / 2)).mp h hza
      · exact (ihb (ox + ((size / 2 : Nat) : Int)) oy (size / 2)).mp h hzb
      · exact (ihc ox (oy + ((size / 2 : Nat) : Int)) (size / 2)).mp h hzc
      · exact (ihd (ox + ((size / 2 : Nat) : Int)) (oy + ((size / 2 : Nat) : Int))
          (size / 2)).mp h hzd
    · intro h
      simp only [TreeNode.containsFull, Bool.or_eq_true]
      by_contra hc
      push_neg at hc
      apply h
      simp only [TreeNode.fullLeaves]
      have hza : a.fullLeaves ox oy (size / 2) = 0 := by
        by_contra hne
        exact hc.1.1.1 ((iha _ _ _).mpr hne)
      have hzb : b.fullLeaves (ox + ((size / 2 : Nat) : Int)) oy (size / 2) = 0 := by
        by_contra hne
        exact hc.1.1.2 ((ihb _ _ _).mpr hne)
      have hzc : c.fullLeaves ox (oy + ((size / 2 : Nat) : Int)) (size / 2) = 0 := by
        by_contra hne
        exact hc.1.2 ((ihc _ _ _).mpr hne)
      have hzd : d.fullLeaves (ox + ((size / 2 : Nat) : Int))
          (oy + ((size / 2 : Nat) : Int)) (size / 2) = 0 := by
        by_contra hne
        exact hc.2 ((ihd _ _ _).mpr hne)
      rw [hza, hzb, hzc, hzd]
      simp

theorem wellMerged_of_parts {t : TreeNode} (h : t.wellMerged = true) :
    t.childrenWellMerged = true := by
  cases t <;> simp_all [TreeNode.wellMerged, TreeNode.childrenWellMerged]

theorem containsFull_of_ne_empty {t : TreeNode} (hw : t.wellMerged = true)
    (hne : t ≠ .emptyLeaf) : t.containsFull = true := by
  cases t with
  | emptyLeaf => exact absurd rfl hne
  | fullLeaf => rfl
  | parent a b c d =>
    simp only [TreeNode.wellMerged, Bool.and_eq_true, Bool.or_eq_true] at hw
    simp only [TreeNode.containsFull, Bool.or_eq_true]
    tauto

theorem eq_empty_of_not_containsFull {t : TreeNode} (hw : t.wellMerged = true)
    (hc : t.containsFull = false) : t = .emptyLeaf := by
  by_contra hne
  rw [containsFull_of_ne_empty hw hne] at hc
  cases hc

theorem mergeIfNecessary_fullLeaves (a b c d : TreeNode) (ox oy : Int) (size : Nat) :
    (TreeNode.parent a b c d).mergeIfNecessary.fullLeaves ox oy size =
      (TreeNode.parent a b c d).fullLeaves ox oy size := by
  rw [TreeNode.mergeIfNecessary]
  split
  · next h =>
    simp only [Bool.and_eq_true, isEmptyLeaf_iff] at h
    obtain ⟨⟨⟨ha, hb⟩, hc⟩, hd⟩ := h
    subst ha; subst hb; subst hc; subst hd
    simp [TreeNode.fullLeaves]
  · rfl

theorem mergeIfNecessary_wellMerged {a b c d : TreeNode}
    (ha : a.wellMerged = true) (hb : b.wellMerged = true)
    (hc : c.wellMerged = true) (hd : d.wellMerged = true) :
    (TreeNode.parent a b c d).mergeIfNecessary.wellMerged = true := by
  rw [TreeNode.mergeIfNecessary]
  split
  · rfl
  · next h =>
    simp only [Bool.and_eq_true, not_and_or, Bool.not_eq_true] at h
    have key : ∀ t : TreeNode, t.isEmptyLeaf = false → t ≠ .emptyLeaf := by
      intro t hf hEq
      subst hEq
      simp [TreeNode.isEmptyLeaf] at hf
    have hne : a ≠ .emptyLeaf ∨ b ≠ .emptyLeaf ∨ c ≠ .emptyLeaf ∨ d ≠ .emptyLeaf := by
      rcases h with ((h | h) | h) | h
      · exact Or.inl (key a h)
      · exact Or.inr (Or.inl (key b h))
      · exact Or.inr (Or.inr (Or.inl (key c h)))
      · exact Or.inr (Or.inr (Or.inr (key d h)))
    simp only [TreeNode.wellMerged, Bool.and_eq_true, Bool.or_eq_true]
    refine ⟨⟨⟨⟨?_, ha⟩, hb⟩, hc⟩, hd⟩
    rcases hne with h | h | h | h
    · exact Or.inl (Or.inl (Or.inl (containsFull_of_ne_empty ha h)))
    · exact Or.inl (Or.inl (Or.inr (containsFull_of_ne_empty hb h)))
    · exact Or.inl (Or.inr (containsFull_of_ne_empty hc h))
    · exact Or.inr (containsFull_of_ne_empty hd h)

theorem mergeIfNecessary_sized {a b c d : TreeNode} {size : Nat}
    (h : (TreeNode.parent a b c d).sized size = true) :
    (TreeNode.parent a b c d).mergeIfNecessary.sized size = true := by
  rw [TreeNode.mergeIfNecessary]
  split
  · rfl
  · exact h

theorem mergeIfNecessary_of_containsFull {a b c d : TreeNode}
    (h : (TreeNode.parent a b c d).containsFull = true) :
    (TreeNode.parent a b c d).mergeIfNecessary = TreeNode.parent a b c d := by
  rw [TreeNode.mergeIfNecessary]
  split
  · next hall =>
    simp only [Bool.and_eq_true, isEmptyLeaf_iff] at hall
    obtain ⟨⟨⟨ha, hb⟩, hc⟩, hd⟩ := hall
    subst ha; subst hb; subst hc; subst hd
    simp [TreeNode.containsFull] at h
  · rfl

theorem fullLeaves_bounds :
    ∀ (t : TreeNode) (ox oy : Int) (size : Nat) (e : Int × Int × Nat),
      e ∈ t.fullLeaves ox oy size → inRegion ox oy size e := by
  intro t
  induction t with
  | emptyLeaf => intro ox oy size e he; simp [TreeNode.fullLeaves] at he
  | fullLeaf =>
    intro ox oy size e he
    simp only [TreeNode.fullLeaves, Multiset.mem_singleton] at he
    subst he
    simp only [inRegion]
    omega
  | parent a b c d iha ihb ihc ihd =>
    intro ox oy size e he
    simp only [TreeNode.fullLeaves, Multiset.mem_add] at he
    have hk : 2 * ((size / 2 : Nat) : Int) ≤ (size : Int) := by omega
    rcases he with ((he | he) | he) | he
    · have := iha _ _ _ _ he
      simp only [inRegion] at this ⊢
      omega
    · have := ihb _ _ _ _ he
      simp only [inRegion] at this ⊢
      omega
    · have := ihc _ _ _ _ he
      simp only [inRegion] at this ⊢
      omega
    · have := ihd _ _ _ _ he
      simp only [inRegion] at this ⊢
      omega

theorem fullLeaves_sized_pos :
    ∀ (t : TreeNode) (ox oy : Int) (size : Nat) (e : Int × Int × Nat),
      t.sized size = true → e ∈ t.fullLeaves ox oy size → 1 ≤ e.2.2 := by
  intro t
  induction t with
  | emptyLeaf => intro ox oy size e _ he; simp [TreeNode.fullLeaves] at he
  | fullLeaf =>
    intro ox oy size e hs he
    simp only [TreeNode.fullLeaves, Multiset.mem_singleton] at he
    subst he
    simp only [TreeNode.sized, bne_iff_ne, ne_eq] at hs
    show 1 ≤ size
    omega
  | parent a b c d iha ihb ihc ihd =>
    intro ox oy size e hs he
    simp only [TreeNode.sized, Bool.and_eq_true] at hs
    simp only [TreeNode.fullLeaves, Multiset.mem_add] at he
    rcases he with ((he | he) | he) | he
    · exact iha _ _ _ _ hs.1.1.1 he
    · exact ihb _ _ _ _ hs.1.1.2 he
    · exact ihc _ _ _ _ hs.1.2 he
    · exact ihd _ _ _ _ hs.2 he

/-! ### The allocate specification -/

/-- Everything a single `TreeNode.allocate` call guarantees: a failed call
keeps the full-leaf multiset (and, on a well-merged tree, the tree itself);
a successful call returns a `req × req` rect inside the node's region, adds
exactly that leaf to the multiset, and the new leaf does not overlap any
existing one. Both outcomes preserve `wellMerged` and `sized`. -/
def AllocGood (t : TreeNode) (ox oy : Int) (size req : Nat) : Prop :=
  ∀ res t1, t.allocate ox oy size req = (res, t1) →
    (res = none →
      t1.fullLeaves ox oy size = t.fullLeaves ox oy size ∧
      (¬ size < req → t.childrenWellMerged = true → t1.wellMerged = true) ∧
      (t.wellMerged = true → t1 = t) ∧
      (1 ≤ req → t.sized size = true → t1.sized size = true)) ∧
    (∀ r : RectI, res = some r →
      r.w = (req : Int) ∧ r.h = (req : Int) ∧
      inRegion ox oy size (r.ox, r.oy, req) ∧
      t1.fullLeaves ox oy size = (r.ox, r.oy, req) ::ₘ t.fullLeaves ox oy size ∧
      (∀ e ∈ t.fullLeaves ox oy size, tripleDisjoint (r.ox, r.oy, req) e) ∧
      (t.childrenWellMerged = true → t1.wellMerged = true) ∧
      (1 ≤ req → t.sized size = true → t1.sized size = true))

/-- The split branch of `TreeNode::allocate` on an empty leaf behaves exactly
like allocating on a parent of four fresh empty leaves (the Rust code
rewrites `self` to such a parent and falls through to the child loop). -/
theorem allocate_emptyLeaf_eq (ox oy : Int) (size req : Nat)
    (h1 : ¬ size < req) (h2 : ¬ size = req) :
    TreeNode.allocate .emptyLeaf ox oy size req =
      TreeNode.allocate
        (.parent .emptyLeaf .emptyLeaf .emptyLeaf .emptyLeaf) ox oy size req := by
  conv_lhs => rw [TreeNode.allocate]
  conv_rhs => rw [TreeNode.allocate]
  simp only [dif_neg h1, dif_neg h2]

/-- The child-cascade of `TreeNode::allocate` on a parent node satisfies the
allocate specification whenever each child call does. -/
theorem alloc_cascade (a b c d : TreeNode) (ox oy : Int) (size req : Nat)
    (hnl : ¬ size < req)
    (ha : AllocGood a ox oy (size / 2) req)
    (hb : AllocGood b (ox + ((size / 2 : Nat) : Int)) oy (size / 2) req)
    (hc : AllocGood c ox (oy + ((size / 2 : Nat) : Int)) (size / 2) req)
    (hd : AllocGood d (ox + ((size / 2 : Nat) : Int)) (oy + ((size / 2 : Nat) : Int))
      (size / 2) req) :
    AllocGood (.parent a b c d) ox oy size req := by
  intro res t1 heq
  rw [TreeNode.allocate] at heq
  rw [dif_neg hnl] at heq
  rcases hA : TreeNode.allocate a ox oy (size / 2) req with ⟨ra, a1⟩
  rcases hB : TreeNode.allocate b (ox + ((size / 2 : Nat) : Int)) oy (size / 2) req
    with ⟨rb, b1⟩
  rcases hC : TreeNode.allocate c ox (oy + ((size / 2 : Nat) : Int)) (size / 2) req
    with ⟨rc, c1⟩
  rcases hD : TreeNode.allocate d (ox + ((size / 2 : Nat) : Int))
    (oy + ((size / 2 : Nat) : Int)) (size / 2) req with ⟨rd, d1⟩
  rw [hA, hB, hC, hD] at heq
  rcases ra with _ | r
  rotate_left
  · -- the top-left child succeeded
    replace heq : ((some r : Option RectI), TreeNode.parent a1 b c d) = (res, t1) := heq
    rw [Prod.mk.injEq] at heq
    obtain ⟨hres, ht1⟩ := heq
    subst hres; subst ht1
    obtain ⟨_, hsA⟩ := ha _ _ hA
    obtain ⟨hw, hh, hreg, hfl, hdisj, hwm, hsz⟩ := hsA r rfl
    constructor
    · intro hcon; simp at hcon
    · intro r' hr'
      rw [Option.some.injEq] at hr'
      subst hr'
      refine ⟨hw, hh, ?_, ?_, ?_, ?_, ?_⟩
      · simp only [inRegion] at hreg ⊢
        omega
      · simp only [TreeNode.fullLeaves]
        rw [hfl, Multiset.cons_add, Multiset.cons_add, Multiset.cons_add]
      · intro e he
        simp only [TreeNode.fullLeaves, Multiset.mem_add] at he
        rcases he with ((he | he) | he) | he
        · exact hdisj e he
        · have hbd := fullLeaves_bounds b _ _ _ e he
          simp only [inRegion] at hbd hreg
          simp only [tripleDisjoint]
          omega
        · have hbd := fullLeaves_bounds c _ _ _ e he
          simp only [inRegion] at hbd hreg
          simp only [tripleDisjoint]
          omega
        · have hbd := fullLeaves_bounds d _ _ _ e he
          simp only [inRegion] at hbd hreg
          simp only [tripleDisjoint]
          omega
      · intro hcwm
        simp only [TreeNode.childrenWellMerged, Bool.and_eq_true] at hcwm
        obtain ⟨⟨⟨hwa, hwb⟩, hwc⟩, hwd⟩ := hcwm
        have hwa1 : a1.wellMerged = true := hwm (wellMerged_of_parts hwa)
        have hcf : a1.containsFull = true :=
          (containsFull_iff a1 ox oy (size / 2)).mpr
            (by rw [hfl]; exact Multiset.cons_ne_zero)
        simp only [TreeNode.wellMerged, Bool.and_eq_true, Bool.or_eq_true]
        exact ⟨⟨⟨⟨Or.inl (Or.inl (Or.inl hcf)), hwa1⟩, hwb⟩, hwc⟩, hwd⟩
      · intro h1r hszd
        simp only [TreeNode.sized, Bool.and_eq_true] at hszd ⊢
        exact ⟨⟨⟨hsz h1r hszd.1.1.1, hszd.1.1.2⟩, hszd.1.2⟩, hszd.2⟩
  rcases rb with _ | r
  rotate_left
  · -- the top-right child succeeded (after the top-left failed)
    replace heq : ((some r : Option RectI), TreeNode.parent a1 b1 c d) = (res, t1) := heq
    rw [Prod.mk.injEq] at heq
    obtain ⟨hres, ht1⟩ := heq
    subst hres; subst ht1
    obtain ⟨hfA, _⟩ := ha _ _ hA
    have hA' := hfA rfl
    obtain ⟨_, hsB⟩ := hb _ _ hB
    obtain ⟨hw, hh, hreg, hfl, hdisj, hwm, hsz⟩ := hsB r rfl
    constructor
    · intro hcon; simp at hcon
    · intro r' hr'
      rw [Option.some.injEq] at hr'
      subst hr'
      refine ⟨hw, hh, ?_, ?_, ?_, ?_, ?_⟩
      · simp only [inRegion] at hreg ⊢
        omega
      · simp only [TreeNode.fullLeaves]
        rw [hA'.1, hfl, Multiset.add_cons, Multiset.cons_add, Multiset.cons_add]
      · intro e he
        simp only [TreeNode.fullLeaves, Multiset.mem_add] at he
        rcases he with ((he | he) | he) | he
        · have hbd := fullLeaves_bounds a _ _ _ e he
          simp only [inRegion] at hbd hreg
          simp only [tripleDisjoint]
          omega
        · exact hdisj e he
        · have hbd := fullLeaves_bounds c _ _ _ e he
          simp only [inRegion] at hbd hreg
          simp only [tripleDisjoint]
          omega
        · have hbd := fullLeaves_bounds d _ _ _ e he
          simp only [inRegion] at hbd hreg
          simp only [tripleDisjoint]
          omega
      · intro hcwm
        simp only [TreeNode.childrenWellMerged, Bool.and_eq_true] at hcwm
        obtain ⟨⟨⟨hwa, hwb⟩, hwc⟩, hwd⟩ := hcwm
        have hwa1 : a1.wellMerged = true := by rw [hA'.2.2.1 hwa]; exact hwa
        have hwb1 : b1.wellMerged = true := hwm (wellMerged_of_parts hwb)
        have hcf : b1.containsFull = true :=
          (containsFull_iff b1 (ox + ((size / 2 : Nat) : Int)) oy (size / 2)).mpr
            (by rw [hfl]; exact Multiset.cons_ne_zero)
        simp only [TreeNode.wellMerged, Bool.and_eq_true, Bool.or_eq_true]
        exact ⟨⟨⟨⟨Or.inl (Or.inl (Or.inr hcf)), hwa1⟩, hwb1⟩, hwc⟩, hwd⟩
      · intro h1r hszd
        simp only [TreeNode.sized, Bool.and_eq_true] at hszd ⊢
        exact ⟨⟨⟨hA'.2.2.2 h1r hszd.1.1.1, hsz h1r hszd.1.1.2⟩, hszd.1.2⟩, hszd.2⟩
  rcases rc with _ | r
  rotate_left
  · -- the bottom-left child succeeded
    replace heq : ((some r : Option RectI), TreeNode.parent a1 b1 c1 d) = (res, t1) := heq
    rw [Prod.mk.injEq] at heq
    obtain ⟨hres, ht1⟩ := heq
    subst hres; subst ht1
    obtain ⟨hfA, _⟩ := ha _ _ hA
    have hA' := hfA rfl
    obtain ⟨hfB, _⟩ := hb _ _ hB
    have hB' := hfB rfl
    obtain ⟨_, hsC⟩ := hc _ _ hC
    obtain ⟨hw, hh, hreg, hfl, hdisj, hwm, hsz⟩ := hsC r rfl
    constructor
    · intro hcon; simp at hcon
    · intro r' hr'
      rw [Option.some.injEq] at hr'
      subst hr'
      refine ⟨hw, hh, ?_, ?_, ?_, ?_, ?_⟩
      · simp only [inRegion] at hreg ⊢
        omega
      · simp only [TreeNode.fullLeaves]
        rw [hA'.1, hB'.1, hfl, Multiset.add_cons, Multiset.cons_add]
      · intro e he
        simp only [TreeNode.fullLeaves, Multiset.mem_add] at he
        rcases he with ((he | he) | he) | he
        · have hbd := fullLeaves_bounds a _ _ _ e he
          simp only [inRegion] at hbd hreg
          simp only [tripleDisjoint]
          omega
        · have hbd := fullLeaves_bounds b _ _ _ e he
          simp only [inRegion] at hbd hreg
          simp only [tripleDisjoint]
          omega
        · exact hdisj e he
        · have hbd := fullLeaves_bounds d _ _ _ e he
          simp only [inRegion] at hbd hreg
          simp only [tripleDisjoint]
          omega
      · intro hcwm
        simp only [TreeNode.childrenWellMerged, Bool.and_eq_true] at hcwm
        obtain ⟨⟨⟨hwa, hwb⟩, hwc⟩, hwd⟩ := hcwm
        have hwa1 : a1.wellMerged = true := by rw [hA'.2.2.1 hwa]; exact hwa
        have hwb1 : b1.wellMerged = true := by rw [hB'.2.2.1 hwb]; exact hwb
        have hwc1 : c1.wellMerged = true := hwm (wellMerged_of_parts hwc)
        have hcf : c1.containsFull = true :=
          (containsFull_iff c1 ox (oy + ((size / 2 : Nat) : Int)) (size / 2)).mpr
            (by rw [hfl]; exact Multiset.cons_ne_zero)
        simp only [TreeNode.wellMerged, Bool.and_eq_true, Bool.or_eq_true]
        exact ⟨⟨⟨⟨Or.inl (Or.inr hcf), hwa1⟩, hwb1⟩, hwc1⟩, hwd⟩
      · intro h1r hszd
        simp only [TreeNode.sized, Bool.and_eq_true] at hszd ⊢
        exact ⟨⟨⟨hA'.2.2.2 h1r hszd.1.1.1, hB'.2.2.2 h1r hszd.1.1.2⟩,
          hsz h1r hszd.1.2⟩, hszd.2⟩
  rcases rd with _ | r
  rotate_left
  · -- the bottom-right child succeeded
    replace heq : ((some r : Option RectI), TreeNode.parent a1 b1 c1 d1) = (res, t1) := heq
    rw [Prod.mk.injEq] at heq
    obtain ⟨hres, ht1⟩ := heq
    subst hres; subst ht1
    obtain ⟨hfA, _⟩ := ha _ _ hA
    have hA' := hfA rfl
    obtain ⟨hfB, _⟩ := hb _ _ hB
    have hB' := hfB rfl
    obtain ⟨hfC, _⟩ := hc _ _ hC
    have hC' := hfC rfl
    obtain ⟨_, hsD⟩ := hd _ _ hD
    obtain ⟨hw, hh, hreg, hfl, hdisj, hwm, hsz⟩ := hsD r rfl
    constructor
    · intro hcon; simp at hcon
    · intro r' hr'
      rw [Option.some.injEq] at hr'
      subst hr'
      refine ⟨hw, hh, ?_, ?_, ?_, ?_, ?_⟩
      · simp only [inRegion] at hreg ⊢
        omega
      · simp only [TreeNode.fullLeaves]
        rw [hA'.1, hB'.1, hC'.1, hfl, Multiset.add_cons]
      · intro e he
        simp only [TreeNode.fullLeaves, Multiset.mem_add] at he
        rcases he with ((he | he) | he) | he
        · have hbd := fullLeaves_bounds a _ _ _ e he
          simp only [inRegion] at hbd hreg
          simp only [tripleDisjoint]
          omega
        · have hbd := fullLeaves_bounds b _ _ _ e he
          simp only [inRegion] at hbd hreg
          simp only [tripleDisjoint]
          omega
        · have hbd := fullLeaves_bounds c _ _ _ e he
          simp only [inRegion] at hbd hreg
          simp only [tripleDisjoint]
          omega
        · exact hdisj e he
      · intro hcwm
        simp only [TreeNode.childrenWellMerged, Bool.and_eq_true] at hcwm
        obtain ⟨⟨⟨hwa, hwb⟩, hwc⟩, hwd⟩ := hcwm
        have hwa1 : a1.wellMerged = true := by rw [hA'.2.2.1 hwa]; exact hwa
        have hwb1 : b1.wellMerged = true := by rw [hB'.2.2.1 hwb]; exact hwb
        have hwc1 : c1.wellMerged = true := by rw [hC'.2.2.1 hwc]; exact hwc
        have hwd1 : d1.wellMerged = true := hwm (wellMerged_of_parts hwd)
        have hcf : d1.containsFull = true :=
          (containsFull_iff d1 (ox + ((size / 2 : Nat) : Int))
            (oy + ((size / 2 : Nat) : Int)) (size / 2)).mpr
            (by rw [hfl]; exact Multiset.cons_ne_zero)
        simp only [TreeNode.wellMerged, Bool.and_eq_true, Bool.or_eq_true]
        exact ⟨⟨⟨⟨Or.inr hcf, hwa1⟩, hwb1⟩, hwc1⟩, hwd1⟩
      · intro h1r hszd
        simp only [TreeNode.sized, Bool.and_eq_true] at hszd ⊢
        exact ⟨⟨⟨hA'.2.2.2 h1r hszd.1.1.1, hB'.2.2.2 h1r hszd.1.1.2⟩,
          hC'.2.2.2 h1r hszd.1.2⟩, hsz h1r hszd.2⟩
  · -- all four children failed
    replace heq : ((none : Option RectI),
      TreeNode.mergeIfNecessary (.parent a1 b1 c1 d1)) = (res, t1) := heq
    rw [Prod.mk.injEq] at heq
    obtain ⟨hres, ht1⟩ := heq
    subst hres; subst ht1
    obtain ⟨hfA, _⟩ := ha _ _ hA
    have hA' := hfA rfl
    obtain ⟨hfB, _⟩ := hb _ _ hB
    have hB' := hfB rfl
    obtain ⟨hfC, _⟩ := hc _ _ hC
    have hC' := hfC rfl
    obtain ⟨hfD, _⟩ := hd _ _ hD
    have hD' := hfD rfl
    constructor
    · intro _
      refine ⟨?_, ?_, ?_, ?_⟩
      · rw [mergeIfNecessary_fullLeaves]
        simp only [TreeNode.fullLeaves]
        rw [hA'.1, hB'.1, hC'.1, hD'.1]
      · intro _ hcwm
        simp only [TreeNode.childrenWellMerged, Bool.and_eq_true] at hcwm
        obtain ⟨⟨⟨hwa, hwb⟩, hwc⟩, hwd⟩ := hcwm
        rw [hA'.2.2.1 hwa, hB'.2.2.1 hwb, hC'.2.2.1 hwc, hD'.2.2.1 hwd]
        exact mergeIfNecessary_wellMerged hwa hwb hwc hwd
      · intro hwm
        have hcwm := wellMerged_of_parts hwm
        simp only [TreeNode.childrenWellMerged, Bool.and_eq_true] at hcwm
        obtain ⟨⟨⟨hwa, hwb⟩, hwc⟩, hwd⟩ := hcwm
        rw [hA'.2.2.1 hwa, hB'.2.2.1 hwb, hC'.2.2.1 hwc, hD'.2.2.1 hwd]
        apply mergeIfNecessary_of_containsFull
        simp only [TreeNode.wellMerged, Bool.and_eq_true] at hwm
        simp only [TreeNode.containsFull]
        exact hwm.1.1.1.1
      · intro h1r hszd
        simp only [TreeNode.sized, Bool.and_eq_true] at hszd
        apply mergeIfNecessary_sized
        simp only [TreeNode.sized, Bool.and_eq_true]
        exact ⟨⟨⟨hA'.2.2.2 h1r hszd.1.1.1, hB'.2.2.2 h1r hszd.1.1.2⟩,
          hC'.2.2.2 h1r hszd.1.2⟩, hD'.2.2.2 h1r hszd.2⟩
    · intro r hr; simp at hr

/-- Every `TreeNode.allocate` call satisfies the allocate specification. -/
theorem allocGood_all :
    ∀ (n : Nat) (t : TreeNode) (ox oy : Int) (size req : Nat),
      2 * size + t.weight ≤ n → AllocGood t ox oy size req := by
  intro n
  induction n using Nat.strong_induction_on with
  | _ n IH =>
    intro t ox oy size req hm
    match t with
    | .fullLeaf =>
      intro res t1 heq
      rw [TreeNode.allocate] at heq
      rw [Prod.mk.injEq] at heq
      obtain ⟨hres, ht1⟩ := heq
      subst hres; subst ht1
      constructor
      · intro _
        exact ⟨rfl, fun _ _ => rfl, fun _ => rfl, fun _ h => h⟩
      · intro r hr
        simp at hr
    | .emptyLeaf =>
      by_cases h1 : size < req
      · intro res t1 heq
        rw [TreeNode.allocate] at heq
        rw [dif_pos h1] at heq
        rw [Prod.mk.injEq] at heq
        obtain ⟨hres, ht1⟩ := heq
        subst hres; subst ht1
        constructor
        · intro _
          exact ⟨rfl, fun hn2 _ => absurd h1 hn2, fun _ => rfl, fun _ h => h⟩
        · intro r hr
          simp at hr
      · by_cases h2 : size = req
        · subst h2
          intro res t1 heq
          rw [TreeNode.allocate] at heq
          rw [dif_neg h1, dif_pos rfl] at heq
          rw [Prod.mk.injEq] at heq
          obtain ⟨hres, ht1⟩ := heq
          subst hres; subst ht1
          constructor
          · intro hcon
            simp at hcon
          · intro r hr
            rw [Option.some.injEq] at hr
            subst hr
            refine ⟨rfl, rfl, ?_, ?_, ?_, ?_, ?_⟩
            · simp only [inRegion]
              omega
            · simp [TreeNode.fullLeaves]
            · intro e he
              simp [TreeNode.fullLeaves] at he
            · intro _
              rfl
            · intro h1r _
              simp only [TreeNode.sized, bne_iff_ne, ne_eq]
              omega
        · -- the split branch
          have hsz1 : 1 ≤ size := by omega
          have hstep : ∀ (t' : TreeNode) (ox' oy' : Int),
              2 * (size / 2) + t'.weight < 2 * size →
              AllocGood t' ox' oy' (size / 2) req := by
            intro t' ox' oy' hlt
            exact IH (2 * (size / 2) + t'.weight)
              (lt_of_lt_of_le hlt (by simpa using hm)) t' ox' oy' (size / 2) req le_rfl
          have hE : ∀ ox' oy', AllocGood .emptyLeaf ox' oy' (size / 2) req := by
            intro ox' oy'
            exact hstep .emptyLeaf ox' oy' (by simp only [TreeNode.weight]; omega)
          have hP : AllocGood (.parent .emptyLeaf .emptyLeaf .emptyLeaf .emptyLeaf)
              ox oy size req :=
            alloc_cascade _ _ _ _ ox oy size req h1 (hE _ _) (hE _ _) (hE _ _) (hE _ _)
          intro res t1 heq
          rw [allocate_emptyLeaf_eq ox oy size req h1 h2] at heq
          obtain ⟨hfail, hsucc⟩ := hP res t1 heq
          constructor
          · intro hres
            obtain ⟨hfl, hwm, _, hsz⟩ := hfail hres
            have hfl0 : t1.fullLeaves ox oy size = 0 := by
              rw [hfl]
              simp [TreeNode.fullLeaves]
            have hw1 : t1.wellMerged = true := hwm h1 rfl
            refine ⟨by rw [hfl0]; simp [TreeNode.fullLeaves], fun _ _ => hw1, ?_, ?_⟩
            · intro _
              have hcf : t1.containsFull = false := by
                by_contra hcfne
                rw [Bool.not_eq_false] at hcfne
                exact (containsFull_iff t1 ox oy size).mp hcfne hfl0
              exact eq_empty_of_not_containsFull hw1 hcf
            · intro h1r _
              exact hsz h1r rfl
          · intro r hr
            obtain ⟨hw, hh, hreg, hfl, hdisj, hwm, hsz⟩ := hsucc r hr
            refine ⟨hw, hh, hreg, ?_, ?_, fun _ => hwm rfl, fun h1r _ => hsz h1r rfl⟩
            · rw [hfl]
              simp [TreeNode.fullLeaves]
            · intro e he
              simp [TreeNode.fullLeaves] at he
    | .parent a b c d =>
      by_cases h1 : size < req
      · intro res t1 heq
        rw [TreeNode.allocate] at heq
        rw [dif_pos h1] at heq
        rw [Prod.mk.injEq] at heq
        obtain ⟨hres, ht1⟩ := heq
        subst hres; subst ht1
        constructor
        · intro _
          exact ⟨rfl, fun hn2 _ => absurd h1 hn2, fun _ => rfl, fun _ h => h⟩
        · intro r hr
          simp at hr
      · have hstep : ∀ (t' : TreeNode) (ox' oy' : Int),
            2 * (size / 2) + t'.weight < 2 * size + (TreeNode.parent a b c d).weight →
            AllocGood t' ox' oy' (size / 2) req := by
          intro t' ox' oy' hlt
          exact IH (2 * (size / 2) + t'.weight) (lt_of_lt_of_le hlt hm)
            t' ox' oy' (size / 2) req le_rfl
        exact alloc_cascade a b c d ox oy size req h1
          (hstep a ox oy (by simp only [TreeNode.weight]; omega))
          (hstep b _ oy (by simp only [TreeNode.weight]; omega))
          (hstep c ox _ (by simp only [TreeNode.weight]; omega))
          (hstep d _ _ (by simp only [TreeNode.weight]; omega))

/-! ### The free specification -/

/-- Freeing a rect that is recorded as a full leaf succeeds (never reaches
the `unreachable!()` branch), removes exactly that leaf from the full-leaf
multiset, and preserves `wellMerged` and `sized`. -/
theorem free_spec :
    ∀ (t : TreeNode) (ox oy : Int) (size : Nat) (rx ry : Int) (sz : Nat),
      t.wellMerged = true → t.sized size = true →
      (rx, ry, sz) ∈ t.fullLeaves ox oy size →
      ∃ t1, t.free ox oy size rx ry sz = some t1 ∧
        t1.fullLeaves ox oy size = (t.fullLeaves ox oy size).erase (rx, ry, sz) ∧
        t1.wellMerged = true ∧ t1.sized size = true := by
  intro t
  induction t with
  | emptyLeaf =>
    intro ox oy size rx ry sz _ _ hmem
    simp [TreeNode.fullLeaves] at hmem
  | fullLeaf =>
    intro ox oy size rx ry sz _ _ hmem
    simp only [TreeNode.fullLeaves, Multiset.mem_singleton] at hmem
    obtain ⟨h1, h2, h3⟩ : rx = ox ∧ ry = oy ∧ sz = size := by
      simpa [Prod.ext_iff] using hmem
    subst h1; subst h2; subst h3
    refine ⟨.emptyLeaf, ?_, ?_, rfl, rfl⟩
    · rw [TreeNode.free]
      · rw [if_pos (le_refl sz), if_pos ⟨rfl, rfl, rfl⟩]
      · intro a b c d h
        exact TreeNode.noConfusion h
    · simp only [TreeNode.fullLeaves]
      rw [show ({(rx, ry, sz)} : Multiset (Int × Int × Nat)) = (rx, ry, sz) ::ₘ 0 from rfl,
        Multiset.erase_cons_head]
  | parent a b c d iha ihb ihc ihd =>
    intro ox oy size rx ry sz hw hs hmem
    have hw' := hw
    simp only [TreeNode.wellMerged, Bool.and_eq_true] at hw'
    obtain ⟨⟨⟨⟨_, hwa⟩, hwb⟩, hwc⟩, hwd⟩ := hw'
    have hs' := hs
    simp only [TreeNode.sized, Bool.and_eq_true] at hs'
    obtain ⟨⟨⟨hsa, hsb⟩, hsc⟩, hsd⟩ := hs'
    have hmem' := hmem
    simp only [TreeNode.fullLeaves, Multiset.mem_add] at hmem'
    have hlt : sz < size := by
      rcases hmem' with ((he | he) | he) | he
      · have h1 := fullLeaves_bounds a _ _ _ _ he
        have h2 : 1 ≤ sz := fullLeaves_sized_pos a _ _ _ _ hsa he
        simp only [inRegion] at h1
        omega
      · have h1 := fullLeaves_bounds b _ _ _ _ he
        have h2 : 1 ≤ sz := fullLeaves_sized_pos b _ _ _ _ hsb he
        simp only [inRegion] at h1
        omega
      · have h1 := fullLeaves_bounds c _ _ _ _ he
        have h2 : 1 ≤ sz := fullLeaves_sized_pos c _ _ _ _ hsc he
        simp only [inRegion] at h1
        omega
      · have h1 := fullLeaves_bounds d _ _ _ _ he
        have h2 : 1 ≤ sz := fullLeaves_sized_pos d _ _ _ _ hsd he
        simp only [inRegion] at h1
        omega
    rw [TreeNode.free, if_neg (by omega)]
    rcases hmem' with ((he | he) | he) | he
    · -- the leaf lies in the top-left child
      have hbd := fullLeaves_bounds a _ _ _ _ he
      have hpos : 1 ≤ sz := fullLeaves_sized_pos a _ _ _ _ hsa he
      simp only [inRegion] at hbd
      rw [if_pos (by omega), if_pos (by omega)]
      obtain ⟨a1, hfr, hfl, hwm1, hsz1⟩ := iha ox oy (size / 2) rx ry sz hwa hsa he
      rw [hfr]
      refine ⟨_, rfl, ?_, ?_, ?_⟩
      · rw [mergeIfNecessary_fullLeaves]
        simp only [TreeNode.fullLeaves]
        rw [hfl]
        rw [Multiset.erase_add_left_pos _
            (Multiset.mem_add.mpr (Or.inl (Multiset.mem_add.mpr (Or.inl he)))),
          Multiset.erase_add_left_pos _ (Multiset.mem_add.mpr (Or.inl he)),
          Multiset.erase_add_left_pos _ he]
      · exact mergeIfNecessary_wellMerged hwm1 hwb hwc hwd
      · apply mergeIfNecessary_sized
        simp only [TreeNode.sized, Bool.and_eq_true]
        exact ⟨⟨⟨hsz1, hsb⟩, hsc⟩, hsd⟩
    · -- top-right child
      have hbd := fullLeaves_bounds b _ _ _ _ he
      have hpos : 1 ≤ sz := fullLeaves_sized_pos b _ _ _ _ hsb he
      simp only [inRegion] at hbd
      rw [if_pos (by omega), if_neg (by omega)]
      obtain ⟨b1, hfr, hfl, hwm1, hsz1⟩ := ihb _ oy (size / 2) rx ry sz hwb hsb he
      rw [hfr]
      refine ⟨_, rfl, ?_, ?_, ?_⟩
      · rw [mergeIfNecessary_fullLeaves]
        simp only [TreeNode.fullLeaves]
        rw [hfl]
        rw [Multiset.erase_add_left_pos _
            (Multiset.mem_add.mpr (Or.inl (Multiset.mem_add.mpr (Or.inr he)))),
          Multiset.erase_add_left_pos _ (Multiset.mem_add.mpr (Or.inr he)),
          Multiset.erase_add_right_pos _ he]
      · exact mergeIfNecessary_wellMerged hwa hwm1 hwc hwd
      · apply mergeIfNecessary_sized
        simp only [TreeNode.sized, Bool.and_eq_true]
        exact ⟨⟨⟨hsa, hsz1⟩, hsc⟩, hsd⟩
    · -- bottom-left child
      have hbd := fullLeaves_bounds c _ _ _ _ he
      have hpos : 1 ≤ sz := fullLeaves_sized_pos c _ _ _ _ hsc he
      simp only [inRegion] at hbd
      rw [if_neg (by omega), if_pos (by omega)]
      obtain ⟨c1, hfr, hfl, hwm1, hsz1⟩ := ihc ox _ (size / 2) rx ry sz hwc hsc he
      rw [hfr]
      refine ⟨_, rfl, ?_, ?_, ?_⟩
      · rw [mergeIfNecessary_fullLeaves]
        simp only [TreeNode.fullLeaves]
        rw [hfl]
        rw [Multiset.erase_add_left_pos _
            (Multiset.mem_add.mpr (Or.inr he)),
          Multiset.erase_add_right_pos _ he]
      · exact mergeIfNecessary_wellMerged hwa hwb hwm1 hwd
      · apply mergeIfNecessary_sized
        simp only [TreeNode.sized, Bool.and_eq_true]
        exact ⟨⟨⟨hsa, hsb⟩, hsz1⟩, hsd⟩
    · -- bottom-right child
      have hbd := fullLeaves_bounds d _ _ _ _ he
      have hpos : 1 ≤ sz := fullLeaves_sized_pos d _ _ _ _ hsd he
      simp only [inRegion] at hbd
      rw [if_neg (by omega), if_neg (by omega)]
      obtain ⟨d1, hfr, hfl, hwm1, hsz1⟩ := ihd _ _ (size / 2) rx ry sz hwd hsd he
      rw [hfr]
      refine ⟨_, rfl, ?_, ?_, ?_⟩
      · rw [mergeIfNecessary_fullLeaves]
        simp only [TreeNode.fullLeaves]
        rw [hfl]
        rw [Multiset.erase_add_right_pos _ he]
      · exact mergeIfNecessary_wellMerged hwa hwb hwc hwm1
      · apply mergeIfNecessary_sized
        simp only [TreeNode.sized, Bool.and_eq_true]
        exact ⟨⟨⟨hsa, hsb⟩, hsc⟩, hsz1⟩

/-! ### Allocator-level composition -/

/-- The key of a returned rect as `TextureAtlasAllocator::free` reads it
back: its origin and `rect.width() as u32`. -/
def toTriple (r : RectI) : Int × Int × Nat :=
  (r.ox, r.oy, i32ToU32 r.w)

theorem one_le_u32NextPowerOfTwo (n : Nat) : 1 ≤ u32NextPowerOfTwo n :=
  Nat.one_le_two_pow

theorem i32ToU32_natCast {n : Nat} (h : n < 2 ^ 32) : i32ToU32 ((n : Nat) : Int) = n := by
  rw [i32ToU32, Int.emod_eq_of_lt (by positivity) (by exact_mod_cast h)]
  simp

/-- Running `allocate` over any list of requests preserves the allocator's
length and invariants, and the full leaves afterwards are exactly the
returned rects' keys on top of the leaves already present. -/
theorem allocAll_spec :
    ∀ (sizes : List (Int × Int)) (a : TextureAtlasAllocator),
      a.root.wellMerged = true → a.root.sized a.size = true → a.size < 2 ^ 32 →
      (a.allocAll sizes).2.size = a.size ∧
      (a.allocAll sizes).2.root.wellMerged = true ∧
      (a.allocAll sizes).2.root.sized a.size = true ∧
      (a.allocAll sizes).2.root.fullLeaves 0 0 a.size =
        (((a.allocAll sizes).1.map toTriple : List (Int × Int × Nat)) :
            Multiset (Int × Int × Nat)) +
          a.root.fullLeaves 0 0 a.size := by
  intro sizes
  induction sizes with
  | nil =>
    intro a hw hs _
    refine ⟨rfl, hw, hs, by simp [TextureAtlasAllocator.allocAll]⟩
  | cons p rest ih =>
    intro a hw hs hlt
    obtain ⟨x, y⟩ := p
    have hg := allocGood_all (2 * a.size + a.root.weight) a.root 0 0 a.size
      (u32NextPowerOfTwo (i32ToU32 (max x y))) le_rfl
    rcases hq : TreeNode.allocate a.root 0 0 a.size
        (u32NextPowerOfTwo (i32ToU32 (max x y))) with ⟨res, root1⟩
    obtain ⟨hfail, hsucc⟩ := hg res root1 hq
    have hal : a.allocate x y = (res, ⟨root1, a.size⟩) := by
      rw [TextureAtlasAllocator.allocate, hq]
    rcases res with _ | r
    · -- failed allocation: leaves unchanged
      obtain ⟨hfl, _, hunch, hsz⟩ := hfail rfl
      have heq1 : root1 = a.root := hunch hw
      have hw1 : root1.wellMerged = true := by rw [heq1]; exact hw
      rw [TextureAtlasAllocator.allocAll, hal]
      show (TextureAtlasAllocator.allocAll ⟨root1, a.size⟩ rest).2.size = a.size ∧
        (TextureAtlasAllocator.allocAll ⟨root1, a.size⟩ rest).2.root.wellMerged = true ∧
        (TextureAtlasAllocator.allocAll ⟨root1, a.size⟩ rest).2.root.sized a.size = true ∧
        (TextureAtlasAllocator.allocAll ⟨root1, a.size⟩ rest).2.root.fullLeaves 0 0 a.size =
          ((((TextureAtlasAllocator.allocAll ⟨root1, a.size⟩ rest).1.map toTriple :
              List (Int × Int × Nat)) : Multiset (Int × Int × Nat))) +
            a.root.fullLeaves 0 0 a.size
      obtain ⟨ih1, ih2, ih3, ih4⟩ :=
        ih ⟨root1, a.size⟩ hw1 (hsz (one_le_u32NextPowerOfTwo _) hs) hlt
      exact ⟨ih1, ih2, ih3, by rw [ih4, hfl]⟩
    · -- successful allocation
      obtain ⟨hwr, hhr, hreg, hflr, _, hwm, hsz⟩ := hsucc r rfl
      have hw1 : root1.wellMerged = true := hwm (wellMerged_of_parts hw)
      have hs1 : root1.sized a.size = true := hsz (one_le_u32NextPowerOfTwo _) hs
      rw [TextureAtlasAllocator.allocAll, hal]
      show (TextureAtlasAllocator.allocAll ⟨root1, a.size⟩ rest).2.size = a.size ∧
        (TextureAtlasAllocator.allocAll ⟨root1, a.size⟩ rest).2.root.wellMerged = true ∧
        (TextureAtlasAllocator.allocAll ⟨root1, a.size⟩ rest).2.root.sized a.size = true ∧
        (TextureAtlasAllocator.allocAll ⟨root1, a.size⟩ rest).2.root.fullLeaves 0 0 a.size =
          ((((r :: (TextureAtlasAllocator.allocAll ⟨root1, a.size⟩ rest).1).map toTriple :
              List (Int × Int × Nat)) : Multiset (Int × Int × Nat))) +
            a.root.fullLeaves 0 0 a.size
      obtain ⟨ih1, ih2, ih3, ih4⟩ := ih ⟨root1, a.size⟩ hw1 hs1 hlt
      refine ⟨ih1, ih2, ih3, ?_⟩
      have hreq_le : u32NextPowerOfTwo (i32ToU32 (max x y)) ≤ a.size := by
        simp only [inRegion] at hreg
        omega
      have htr : toTriple r =
          (r.ox, r.oy, u32NextPowerOfTwo (i32ToU32 (max x y))) := by
        rw [toTriple, hwr, i32ToU32_natCast (lt_of_le_of_lt hreq_le hlt)]
      rw [ih4, hflr]
      simp only [List.map_cons, Multiset.cons_add, Multiset.add_cons, htr,
        ← Multiset.cons_coe]

/-- Freeing a list of rects whose keys are exactly the allocator's full
leaves succeeds (no `free` panic) and leaves the quadtree a single
`EmptyLeaf`. -/
theorem freeAll_spec :
    ∀ (rects : List RectI) (a : TextureAtlasAllocator),
      a.root.wellMerged = true → a.root.sized a.size = true →
      a.root.fullLeaves 0 0 a.size =
        ((rects.map toTriple : List (Int × Int × Nat)) : Multiset (Int × Int × Nat)) →
      ∃ a1, a.freeAll rects = some a1 ∧ a1.root = .emptyLeaf ∧ a1.size = a.size := by
  intro rects
  induction rects with
  | nil =>
    intro a hw _ hfl
    refine ⟨a, rfl, ?_, rfl⟩
    have hcf : a.root.containsFull = false := by
      by_contra h
      rw [Bool.not_eq_false] at h
      exact (containsFull_iff _ 0 0 a.size).mp h (by rw [hfl]; simp)
    exact eq_empty_of_not_containsFull hw hcf
  | cons r rest ih =>
    intro a hw hs hfl
    have hmem : (r.ox, r.oy, i32ToU32 r.w) ∈ a.root.fullLeaves 0 0 a.size := by
      rw [hfl]
      simp [toTriple]
    obtain ⟨root1, hfr, hfl1, hw1, hs1⟩ :=
      free_spec a.root 0 0 a.size r.ox r.oy (i32ToU32 r.w) hw hs hmem
    have hafree : a.free r = some ⟨root1, a.size⟩ := by
      rw [TextureAtlasAllocator.free, hfr]
      rfl
    rw [TextureAtlasAllocator.freeAll, hafree]
    show ∃ a1, TextureAtlasAllocator.freeAll ⟨root1, a.size⟩ rest = some a1 ∧
      a1.root = .emptyLeaf ∧ a1.size = a.size
    apply ih ⟨root1, a.size⟩ hw1 hs1
    show root1.fullLeaves 0 0 a.size = _
    rw [hfl1, hfl]
    simp only [List.map_cons, ← Multiset.cons_coe]
    rw [show toTriple r = (r.ox, r.oy, i32ToU32 r.w) from rfl, Multiset.erase_cons_head]

/-- The origin and size of a returned rect, as integers for the
non-overlap statement. -/
def rectKey (r : RectI) : Int × Int × Nat :=
  (r.ox, r.oy, r.w.toNat)

/-- Rects returned by a run of `allocate` calls are pairwise disjoint, each
is square with non-negative side, and each stays disjoint from every full
leaf already present when the run started. -/
theorem allocAll_pairwise :
    ∀ (sizes : List (Int × Int)) (a : TextureAtlasAllocator),
      ((a.allocAll sizes).1.Pairwise fun r s => tripleDisjoint (rectKey r) (rectKey s)) ∧
      (∀ e ∈ a.root.fullLeaves 0 0 a.size, ∀ r ∈ (a.allocAll sizes).1,
        tripleDisjoint e (rectKey r)) ∧
      (∀ r ∈ (a.allocAll sizes).1, r.w = r.h ∧ 0 ≤ r.w) := by
  intro sizes
  induction sizes with
  | nil =>
    intro a
    simp [TextureAtlasAllocator.allocAll]
  | cons p rest ih =>
    intro a
    obtain ⟨x, y⟩ := p
    have hg := allocGood_all (2 * a.size + a.root.weight) a.root 0 0 a.size
      (u32NextPowerOfTwo (i32ToU32 (max x y))) le_rfl
    rcases hq : TreeNode.allocate a.root 0 0 a.size
        (u32NextPowerOfTwo (i32ToU32 (max x y))) with ⟨res, root1⟩
    obtain ⟨hfail, hsucc⟩ := hg res root1 hq
    have hal : a.allocate x y = (res, ⟨root1, a.size⟩) := by
      rw [TextureAtlasAllocator.allocate, hq]
    rcases res with _ | r
    · obtain ⟨hfl, _, _, _⟩ := hfail rfl
      rw [TextureAtlasAllocator.allocAll, hal]
      show ((TextureAtlasAllocator.allocAll ⟨root1, a.size⟩ rest).1.Pairwise
          fun r s => tripleDisjoint (rectKey r) (rectKey s)) ∧
        (∀ e ∈ a.root.fullLeaves 0 0 a.size,
          ∀ r ∈ (TextureAtlasAllocator.allocAll ⟨root1, a.size⟩ rest).1,
            tripleDisjoint e (rectKey r)) ∧
        (∀ r ∈ (TextureAtlasAllocator.allocAll ⟨root1, a.size⟩ rest).1,
          r.w = r.h ∧ 0 ≤ r.w)
      obtain ⟨ih1, ih2, ih3⟩ := ih ⟨root1, a.size⟩
      refine ⟨ih1, ?_, ih3⟩
      intro e he rr hrr
      have he1 : e ∈ root1.fullLeaves 0 0 a.size := by
        rw [hfl]
        exact he
      exact ih2 e he1 rr hrr
    · obtain ⟨hwr, hhr, hreg, hflr, hdisj, _, _⟩ := hsucc r rfl
      rw [TextureAtlasAllocator.allocAll, hal]
      show ((r :: (TextureAtlasAllocator.allocAll ⟨root1, a.size⟩ rest).1).Pairwise
          fun r s => tripleDisjoint (rectKey r) (rectKey s)) ∧
        (∀ e ∈ a.root.fullLeaves 0 0 a.size,
          ∀ rr ∈ r :: (TextureAtlasAllocator.allocAll ⟨root1, a.size⟩ rest).1,
            tripleDisjoint e (rectKey rr)) ∧
        (∀ rr ∈ r :: (TextureAtlasAllocator.allocAll ⟨root1, a.size⟩ rest).1,
          rr.w = rr.h ∧ 0 ≤ rr.w)
      obtain ⟨ih1, ih2, ih3⟩ := ih ⟨root1, a.size⟩
      have hkey : rectKey r = (r.ox, r.oy, u32NextPowerOfTwo (i32ToU32 (max x y))) := by
        rw [rectKey, hwr]
        simp
      refine ⟨?_, ?_, ?_⟩
      · rw [List.pairwise_cons]
        constructor
        · intro s hsmem
          have hin : rectKey r ∈ root1.fullLeaves 0 0 a.size := by
            rw [hflr, hkey]
            exact Multiset.mem_cons_self _ _
          exact ih2 (rectKey r) hin s hsmem
        · exact ih1
      · intro e he rr hrr
        rcases List.mem_cons.mp hrr with hrr1 | hrr1
        · subst hrr1
          rw [hkey]
          exact tripleDisjoint_symm (hdisj e he)
        · have he1 : e ∈ root1.fullLeaves 0 0 a.size := by
            rw [hflr]
            exact Multiset.mem_cons_of_mem he
          exact ih2 e he1 rr hrr1
      · intro rr hrr
        rcases List.mem_cons.mp hrr with hrr1 | hrr1
        · subst hrr1
          refine ⟨by rw [hwr, hhr], by rw [hwr]; positivity⟩
        · exact ih3 rr hrr1

/-- C1: for every sequence of allocation requests (width, height) with each
component in [1, L] and L a power of two (at most `ATLAS_TEXTURE_LENGTH`, as
in the spec), made on a single `TextureAtlasAllocator` of length L: if every
rect returned by `allocate` is then passed to `free`, in any order, no free
panics and `is_empty()` returns true afterwards. -/
theorem claim_c1_alloc_free_roundtrip_empty (k : Nat) (hk : k ≤ 10)
    (sizes : List (Int × Int))
    (hs : ∀ p ∈ sizes, 1 ≤ p.1 ∧ p.1 ≤ ((2 ^ k : Nat) : Int) ∧
      1 ≤ p.2 ∧ p.2 ≤ ((2 ^ k : Nat) : Int))
    (rects1 : List RectI)
    (hperm : ((TextureAtlasAllocator.withLength (2 ^ k)).allocAll sizes).1.Perm rects1) :
    ∃ a1,
      ((TextureAtlasAllocator.withLength (2 ^ k)).allocAll sizes).2.freeAll rects1 =
        some a1 ∧ a1.isEmpty = true := by
  have hlt : (TextureAtlasAllocator.withLength (2 ^ k)).size < 2 ^ 32 := by
    show 2 ^ k < 2 ^ 32
    calc 2 ^ k ≤ 2 ^ 10 := Nat.pow_le_pow_right (by norm_num) hk
    _ < 2 ^ 32 := by norm_num
  obtain ⟨h1, h2, h3, h4⟩ :=
    allocAll_spec sizes (TextureAtlasAllocator.withLength (2 ^ k)) rfl rfl hlt
  have hml : ((TextureAtlasAllocator.withLength (2 ^ k)).allocAll sizes).2.root.fullLeaves
      0 0 ((TextureAtlasAllocator.withLength (2 ^ k)).allocAll sizes).2.size =
      ((rects1.map toTriple : List (Int × Int × Nat)) : Multiset (Int × Int × Nat)) := by
    rw [h1]
    show _ = ((rects1.map toTriple : List (Int × Int × Nat)) : Multiset (Int × Int × Nat))
    rw [h4]
    have hz : (TextureAtlasAllocator.withLength (2 ^ k)).root.fullLeaves 0 0
        (TextureAtlasAllocator.withLength (2 ^ k)).size = 0 := rfl
    rw [hz, add_zero]
    exact Multiset.coe_eq_coe.mpr (hperm.map toTriple)
  obtain ⟨a1, hfree, hroot, _⟩ := freeAll_spec rects1 _ h2 (by rw [h1]; exact h3) hml
  exact ⟨a1, hfree, by rw [TextureAtlasAllocator.isEmpty, hroot]; rfl⟩

/-- C2: with no intervening free, the rects returned by the successful
allocate calls of any request sequence on a single atlas allocator are
pairwise non-overlapping. -/
theorem claim_c2_allocations_pairwise_disjoint (L : Nat) (sizes : List (Int × Int))
    (hs : ∀ p ∈ sizes, 1 ≤ p.1 ∧ p.1 ≤ (L : Int) ∧ 1 ≤ p.2 ∧ p.2 ≤ (L : Int)) :
    ((TextureAtlasAllocator.withLength L).allocAll sizes).1.Pairwise
      RectI.disjointWith := by
  obtain ⟨h1, _, h3⟩ := allocAll_pairwise sizes (TextureAtlasAllocator.withLength L)
  refine List.Pairwise.imp_of_mem ?_ h1
  intro r s hr hsmem hRd
  obtain ⟨hw1, hp1⟩ := h3 r hr
  obtain ⟨hw2, hp2⟩ := h3 s hsmem
  simp only [rectKey, tripleDisjoint] at hRd
  simp only [RectI.disjointWith]
  omega

/-- C9: a failed `TextureAtlasAllocator::allocate` (returning `None`) leaves
the allocator completely unchanged; `wellMerged` holds for every reachable
allocator state (the fresh allocator trivially, and it is preserved by
`allocate` and `free` per `allocGood_all` and `free_spec`). -/
theorem claim_c9_failed_allocate_unchanged (a : TextureAtlasAllocator) (x y : Int)
    (hw : a.root.wellMerged = true) (hn : (a.allocate x y).1 = none) :
    (a.allocate x y).2 = a := by
  have hg := allocGood_all (2 * a.size + a.root.weight) a.root 0 0 a.size
    (u32NextPowerOfTwo (i32ToU32 (max x y))) le_rfl
  rcases hq : TreeNode.allocate a.root 0 0 a.size
      (u32NextPowerOfTwo (i32ToU32 (max x y))) with ⟨res, root1⟩
  obtain ⟨hfail, _⟩ := hg res root1 hq
  have hal : a.allocate x y = (res, ⟨root1, a.size⟩) := by
    rw [TextureAtlasAllocator.allocate, hq]
  rw [hal] at hn ⊢
  have hres : res = none := hn
  subst hres
  have hun : root1 = a.root := (hfail rfl).2.2.1 hw
  rw [hun]

/-! ### Concrete evaluation helpers -/

theorem alloc_fullLeaf_eval (ox oy : Int) (size req : Nat) :
    TreeNode.allocate .fullLeaf ox oy size req = (none, .fullLeaf) := by
  rw [TreeNode.allocate]

theorem alloc_fit_eval (ox oy : Int) (s : Nat) :
    TreeNode.allocate .emptyLeaf ox oy s s =
      (some ⟨ox, oy, (s : Int), (s : Int)⟩, .fullLeaf) := by
  rw [TreeNode.allocate, dif_neg (lt_irrefl s), dif_pos rfl]

/-- Allocating a power-of-two request on a fresh (empty) subtree of
power-of-two size always succeeds, placing the rect at the subtree's own
origin (the walk always takes the top-left child). -/
theorem allocate_empty_pow2 :
    ∀ (m j : Nat), j ≤ m → ∀ ox oy : Int,
      ∃ root1, TreeNode.allocate .emptyLeaf ox oy (2 ^ m) (2 ^ j) =
        (some ⟨ox, oy, ((2 ^ j : Nat) : Int), ((2 ^ j : Nat) : Int)⟩, root1) := by
  intro m
  induction m with
  | zero =>
    intro j hj ox oy
    have hj0 : j = 0 := Nat.le_zero.mp hj
    subst hj0
    exact ⟨.fullLeaf, alloc_fit_eval ox oy 1⟩
  | succ m ih =>
    intro j hj ox oy
    by_cases hje : j = m + 1
    · subst hje
      exact ⟨.fullLeaf, alloc_fit_eval ox oy (2 ^ (m + 1))⟩
    · have hj' : j ≤ m := by omega
      obtain ⟨r1, hr1⟩ := ih j hj' ox oy
      refine ⟨.parent r1 .emptyLeaf .emptyLeaf .emptyLeaf, ?_⟩
      have hlt : (2 : Nat) ^ j < 2 ^ (m + 1) :=
        Nat.pow_lt_pow_right (by norm_num) (by omega)
      rw [TreeNode.allocate, dif_neg (by omega), dif_neg (by omega)]
      rw [show (2 : Nat) ^ (m + 1) / 2 = 2 ^ m from by rw [Nat.pow_succ]; omega]
      rw [hr1]

theorem i32ToU32_of_nonneg {z : Int} (h0 : 0 ≤ z) (h1 : z < 2 ^ 32) :
    ((i32ToU32 z : Nat) : Int) = z := by
  rw [i32ToU32, Int.emod_eq_of_lt h0 (by omega)]
  simp [Int.toNat_of_nonneg h0]

theorem req_eval_22 : u32NextPowerOfTwo (i32ToU32 (max (2 : Int) 2)) = 2 := by
  rw [show i32ToU32 (max (2 : Int) 2) = 2 from by decide]
  simp [u32NextPowerOfTwo, Nat.clog]

theorem req_eval_11 : u32NextPowerOfTwo (i32ToU32 (max (1 : Int) 1)) = 1 := by
  rw [show i32ToU32 (max (1 : Int) 1) = 1 from by decide]
  simp [u32NextPowerOfTwo, Nat.clog]

theorem esplit_2_1 (ox oy : Int) :
    TreeNode.allocate .emptyLeaf ox oy 2 1 =
      (some ⟨ox, oy, 1, 1⟩,
        .parent .fullLeaf .emptyLeaf .emptyLeaf .emptyLeaf) := by
  rw [TreeNode.allocate, dif_neg (by norm_num), dif_neg (by norm_num),
    show (2 : Nat) / 2 = 1 from rfl, alloc_fit_eval]
  rfl

theorem tstep_1 : TreeNode.allocate .emptyLeaf 0 0 4 2 =
    (some ⟨0, 0, 2, 2⟩, .parent .fullLeaf .emptyLeaf .emptyLeaf .emptyLeaf) := by
  rw [TreeNode.allocate, dif_neg (by norm_num), dif_neg (by norm_num),
    show (4 : Nat) / 2 = 2 from rfl, alloc_fit_eval]
  rfl

theorem tstep_2 :
    TreeNode.allocate (.parent .fullLeaf .emptyLeaf .emptyLeaf .emptyLeaf) 0 0 4 2 =
      (some ⟨2, 0, 2, 2⟩, .parent .fullLeaf .fullLeaf .emptyLeaf .emptyLeaf) := by
  rw [TreeNode.allocate, dif_neg (by norm_num), show (4 : Nat) / 2 = 2 from rfl]
  simp only [alloc_fullLeaf_eval, alloc_fit_eval]
  norm_num
theorem tstep_3 :
    TreeNode.allocate (.parent .fullLeaf .fullLeaf .emptyLeaf .emptyLeaf) 0 0 4 2 =
      (some ⟨0, 2, 2, 2⟩, .parent .fullLeaf .fullLeaf .fullLeaf .emptyLeaf) := by
  rw [TreeNode.allocate, dif_neg (by norm_num), show (4 : Nat) / 2 = 2 from rfl]
  simp only [alloc_fullLeaf_eval, alloc_fit_eval]
  norm_num

theorem tstep_4 :
    TreeNode.allocate (.parent .fullLeaf .fullLeaf .fullLeaf .emptyLeaf) 0 0 4 2 =
      (some ⟨2, 2, 2, 2⟩, .parent .fullLeaf .fullLeaf .fullLeaf .fullLeaf) := by
  rw [TreeNode.allocate, dif_neg (by norm_num), show (4 : Nat) / 2 = 2 from rfl]
  simp only [alloc_fullLeaf_eval, alloc_fit_eval]
  norm_num

theorem tstep_5 :
    TreeNode.allocate (.parent .fullLeaf .fullLeaf .fullLeaf .fullLeaf) 0 0 4 1 =
      (none, .parent .fullLeaf .fullLeaf .fullLeaf .fullLeaf) := by
  rw [TreeNode.allocate, dif_neg (by norm_num), show (4 : Nat) / 2 = 2 from rfl]
  simp only [alloc_fullLeaf_eval]
  rfl

theorem tstep_11 :
    TreeNode.allocate (.parent .fullLeaf .emptyLeaf .emptyLeaf .emptyLeaf) 0 0 4 1 =
      (some ⟨2, 0, 1, 1⟩,
        .parent .fullLeaf (.parent .fullLeaf .emptyLeaf .emptyLeaf .emptyLeaf)
          .emptyLeaf .emptyLeaf) := by
  rw [TreeNode.allocate, dif_neg (by norm_num), show (4 : Nat) / 2 = 2 from rfl]
  simp only [alloc_fullLeaf_eval, esplit_2_1]
  norm_num

theorem astep_1 :
    TextureAtlasAllocator.allocate ⟨.emptyLeaf, 4⟩ 2 2 =
      (some ⟨0, 0, 2, 2⟩,
        ⟨.parent .fullLeaf .emptyLeaf .emptyLeaf .emptyLeaf, 4⟩) := by
  rw [TextureAtlasAllocator.allocate]
  dsimp only
  rw [req_eval_22, tstep_1]

theorem astep_2 :
    TextureAtlasAllocator.allocate ⟨.parent .fullLeaf .emptyLeaf .emptyLeaf .emptyLeaf, 4⟩
        2 2 =
      (some ⟨2, 0, 2, 2⟩, ⟨.parent .fullLeaf .fullLeaf .emptyLeaf .emptyLeaf, 4⟩) := by
  rw [TextureAtlasAllocator.allocate]
  dsimp only
  rw [req_eval_22, tstep_2]

theorem astep_3 :
    TextureAtlasAllocator.allocate ⟨.parent .fullLeaf .fullLeaf .emptyLeaf .emptyLeaf, 4⟩
        2 2 =
      (some ⟨0, 2, 2, 2⟩, ⟨.parent .fullLeaf .fullLeaf .fullLeaf .emptyLeaf, 4⟩) := by
  rw [TextureAtlasAllocator.allocate]
  dsimp only
  rw [req_eval_22, tstep_3]

theorem astep_4 :
    TextureAtlasAllocator.allocate ⟨.parent .fullLeaf .fullLeaf .fullLeaf .emptyLeaf, 4⟩
        2 2 =
      (some ⟨2, 2, 2, 2⟩, ⟨.parent .fullLeaf .fullLeaf .fullLeaf .fullLeaf, 4⟩) := by
  rw [TextureAtlasAllocator.allocate]
  dsimp only
  rw [req_eval_22, tstep_4]

theorem astep_5 :
    TextureAtlasAllocator.allocate ⟨.parent .fullLeaf .fullLeaf .fullLeaf .fullLeaf, 4⟩
        1 1 =
      (none, ⟨.parent .fullLeaf .fullLeaf .fullLeaf .fullLeaf, 4⟩) := by
  rw [TextureAtlasAllocator.allocate]
  dsimp only
  rw [req_eval_11, tstep_5]

theorem astep_11 :
    TextureAtlasAllocator.allocate ⟨.parent .fullLeaf .emptyLeaf .emptyLeaf .emptyLeaf, 4⟩
        1 1 =
      (some ⟨2, 0, 1, 1⟩,
        ⟨.parent .fullLeaf (.parent .fullLeaf .emptyLeaf .emptyLeaf .emptyLeaf)
          .emptyLeaf .emptyLeaf, 4⟩) := by
  rw [TextureAtlasAllocator.allocate]
  dsimp only
  rw [req_eval_11, tstep_11]

/-- The run of the first two allocations of scenario S2. -/
theorem atlas4_allocAll_two :
    (TextureAtlasAllocator.withLength 4).allocAll [(2, 2), (1, 1)] =
      ([⟨0, 0, 2, 2⟩, ⟨2, 0, 1, 1⟩],
        ⟨.parent .fullLeaf (.parent .fullLeaf .emptyLeaf .emptyLeaf .emptyLeaf)
          .emptyLeaf .emptyLeaf, 4⟩) := by
  rw [show TextureAtlasAllocator.withLength 4 = (⟨.emptyLeaf, 4⟩ : TextureAtlasAllocator)
    from rfl]
  rw [TextureAtlasAllocator.allocAll, astep_1]
  show ((⟨0, 0, 2, 2⟩ : RectI) ::
      (TextureAtlasAllocator.allocAll
        ⟨.parent .fullLeaf .emptyLeaf .emptyLeaf .emptyLeaf, 4⟩ [(1, 1)]).1,
    (TextureAtlasAllocator.allocAll
      ⟨.parent .fullLeaf .emptyLeaf .emptyLeaf .emptyLeaf, 4⟩ [(1, 1)]).2) = _
  rw [TextureAtlasAllocator.allocAll, astep_11]
  show ((⟨0, 0, 2, 2⟩ : RectI) :: (⟨2, 0, 1, 1⟩ : RectI) ::
      (TextureAtlasAllocator.allocAll
        ⟨.parent .fullLeaf (.parent .fullLeaf .emptyLeaf .emptyLeaf .emptyLeaf)
          .emptyLeaf .emptyLeaf, 4⟩ []).1,
    (TextureAtlasAllocator.allocAll
      ⟨.parent .fullLeaf (.parent .fullLeaf .emptyLeaf .emptyLeaf .emptyLeaf)
        .emptyLeaf .emptyLeaf, 4⟩ []).2) = _
  rw [TextureAtlasAllocator.allocAll]

/-- The run of the four allocations of scenario S1 (claim C5). -/
theorem atlas4_allocAll_four :
    (TextureAtlasAllocator.withLength 4).allocAll [(2, 2), (2, 2), (2, 2), (2, 2)] =
      ([⟨0, 0, 2, 2⟩, ⟨2, 0, 2, 2⟩, ⟨0, 2, 2, 2⟩, ⟨2, 2, 2, 2⟩],
        ⟨.parent .fullLeaf .fullLeaf .fullLeaf .fullLeaf, 4⟩) := by
  rw [show TextureAtlasAllocator.withLength 4 = (⟨.emptyLeaf, 4⟩ : TextureAtlasAllocator)
    from rfl]
  rw [TextureAtlasAllocator.allocAll, astep_1]
  show ((⟨0, 0, 2, 2⟩ : RectI) ::
      (TextureAtlasAllocator.allocAll
        ⟨.parent .fullLeaf .emptyLeaf .emptyLeaf .emptyLeaf, 4⟩ [(2, 2), (2, 2), (2, 2)]).1,
    (TextureAtlasAllocator.allocAll
      ⟨.parent .fullLeaf .emptyLeaf .emptyLeaf .emptyLeaf, 4⟩ [(2, 2), (2, 2), (2, 2)]).2) = _
  rw [TextureAtlasAllocator.allocAll, astep_2]
  show ((⟨0, 0, 2, 2⟩ : RectI) :: (⟨2, 0, 2, 2⟩ : RectI) ::
      (TextureAtlasAllocator.allocAll
        ⟨.parent .fullLeaf .fullLeaf .emptyLeaf .emptyLeaf, 4⟩ [(2, 2), (2, 2)]).1,
    (TextureAtlasAllocator.allocAll
      ⟨.parent .fullLeaf .fullLeaf .emptyLeaf .emptyLeaf, 4⟩ [(2, 2), (2, 2)]).2) = _
  rw [TextureAtlasAllocator.allocAll, astep_3]
  show ((⟨0, 0, 2, 2⟩ : RectI) :: (⟨2, 0, 2, 2⟩ : RectI) :: (⟨0, 2, 2, 2⟩ : RectI) ::
      (TextureAtlasAllocator.allocAll
        ⟨.parent .fullLeaf .fullLeaf .fullLeaf .emptyLeaf, 4⟩ [(2, 2)]).1,
    (TextureAtlasAllocator.allocAll
      ⟨.parent .fullLeaf .fullLeaf .fullLeaf .emptyLeaf, 4⟩ [(2, 2)]).2) = _
  rw [TextureAtlasAllocator.allocAll, astep_4]
  show ((⟨0, 0, 2, 2⟩ : RectI) :: (⟨2, 0, 2, 2⟩ : RectI) :: (⟨0, 2, 2, 2⟩ : RectI) ::
      (⟨2, 2, 2, 2⟩ : RectI) ::
      (TextureAtlasAllocator.allocAll
        ⟨.parent .fullLeaf .fullLeaf .fullLeaf .fullLeaf, 4⟩ []).1,
    (TextureAtlasAllocator.allocAll
      ⟨.parent .fullLeaf .fullLeaf .fullLeaf .fullLeaf, 4⟩ []).2) = _
  rw [TextureAtlasAllocator.allocAll]

/-- C3: for requested sizes with both components in `[1, ATLAS_TEXTURE_LENGTH]`,
`TextureAllocator::allocate` always returns a location: when no existing page
accepts the request, the allocation on a fresh atlas page of length
`ATLAS_TEXTURE_LENGTH` succeeds, so the `expect("Allocation failed!")` panic
(modelled by `none`) is unreachable. -/
theorem claim_c3_allocate_never_panics (ta : TextureAllocator) (x y : Int)
    (hx1 : 1 ≤ x) (hx2 : x ≤ (ATLAS_TEXTURE_LENGTH : Int))
    (hy1 : 1 ≤ y) (hy2 : y ≤ (ATLAS_TEXTURE_LENGTH : Int)) :
    (ta.allocate x y).isSome = true := by
  have hA : ((ATLAS_TEXTURE_LENGTH : Nat) : Int) = 1024 := rfl
  rw [TextureAllocator.allocate,
    if_neg (by rw [not_or]; exact ⟨not_lt.mpr hx2, not_lt.mpr hy2⟩)]
  cases htry : tryAtlasPages x y ta.pages 0 with
  | some pr =>
    rcases pr with ⟨loc, pages1⟩
    rfl
  | none =>
    have hm1 : (1 : Int) ≤ max x y := le_trans hx1 (le_max_left x y)
    have hm2 : max x y ≤ 1024 := max_le (by omega) (by omega)
    have hcast : ((i32ToU32 (max x y) : Nat) : Int) = max x y :=
      i32ToU32_of_nonneg (by omega) (by omega)
    have hn : i32ToU32 (max x y) ≤ 1024 := by
      have := hcast ▸ hm2
      exact_mod_cast this
    have hj : Nat.clog 2 (i32ToU32 (max x y)) ≤ 10 :=
      (Nat.le_pow_iff_clog_le (by norm_num)).mp (by norm_num; omega)
    obtain ⟨root1, hroot⟩ :=
      allocate_empty_pow2 10 (Nat.clog 2 (i32ToU32 (max x y))) hj 0 0
    have key : TreeNode.allocate .emptyLeaf 0 0 ATLAS_TEXTURE_LENGTH
        (u32NextPowerOfTwo (i32ToU32 (max x y))) =
        (some ⟨0, 0, ((2 ^ Nat.clog 2 (i32ToU32 (max x y)) : Nat) : Int),
          ((2 ^ Nat.clog 2 (i32ToU32 (max x y)) : Nat) : Int)⟩, root1) := by
      rw [show (ATLAS_TEXTURE_LENGTH : Nat) = 2 ^ 10 from rfl,
        show u32NextPowerOfTwo (i32ToU32 (max x y)) =
          2 ^ Nat.clog 2 (i32ToU32 (max x y)) from rfl]
      exact hroot
    have hfresh : (TextureAtlasAllocator.withLength ATLAS_TEXTURE_LENGTH).allocate x y =
        (some ⟨0, 0, ((2 ^ Nat.clog 2 (i32ToU32 (max x y)) : Nat) : Int),
          ((2 ^ Nat.clog 2 (i32ToU32 (max x y)) : Nat) : Int)⟩,
          ⟨root1, ATLAS_TEXTURE_LENGTH⟩) := by
      rw [show TextureAtlasAllocator.withLength ATLAS_TEXTURE_LENGTH =
        (⟨.emptyLeaf, ATLAS_TEXTURE_LENGTH⟩ : TextureAtlasAllocator) from rfl]
      rw [TextureAtlasAllocator.allocate]
      dsimp only
      rw [key]
    rw [hfresh]
    rfl

/-- C3 witness: a concrete in-range allocation on an empty `TextureAllocator`
returns a location. -/
theorem claim_c3_witness :
    ((⟨[]⟩ : TextureAllocator).allocate 1 1).isSome = true :=
  claim_c3_allocate_never_panics ⟨[]⟩ 1 1 (by norm_num) (by norm_num [ATLAS_TEXTURE_LENGTH])
    (by norm_num) (by norm_num [ATLAS_TEXTURE_LENGTH])

/-- C4: every rect returned by a successful `TextureAtlasAllocator::allocate`
is square, its side is `next_power_of_two(max(requested.x, requested.y))`,
and that side is a power of two. -/
theorem claim_c4_returned_rect_pow2_square (a : TextureAtlasAllocator) (x y : Int)
    (r : RectI) (hr : (a.allocate x y).1 = some r) :
    r.w = r.h ∧
    r.w = ((u32NextPowerOfTwo (i32ToU32 (max x y)) : Nat) : Int) ∧
    ∃ j : Nat, r.w = ((2 ^ j : Nat) : Int) := by
  have hg := allocGood_all (2 * a.size + a.root.weight) a.root 0 0 a.size
    (u32NextPowerOfTwo (i32ToU32 (max x y))) le_rfl
  rcases hq : TreeNode.allocate a.root 0 0 a.size
      (u32NextPowerOfTwo (i32ToU32 (max x y))) with ⟨res, root1⟩
  have hal : a.allocate x y = (res, ⟨root1, a.size⟩) := by
    rw [TextureAtlasAllocator.allocate, hq]
  rw [hal] at hr
  have hres : res = some r := hr
  subst hres
  obtain ⟨_, hsucc⟩ := hg _ _ hq
  obtain ⟨hw, hh, _⟩ := hsucc r rfl
  refine ⟨by rw [hw, hh], hw, Nat.clog 2 (i32ToU32 (max x y)), by rw [hw]; rfl⟩

/-- C4 witness: allocating (2, 2) on a fresh length-4 atlas returns the rect
(0,0)-(2,2), which is square of power-of-two side `next_power_of_two 2 = 2`. -/
theorem claim_c4_witness :
    ((TextureAtlasAllocator.withLength 4).allocate 2 2).1 = some ⟨0, 0, 2, 2⟩ ∧
    ((⟨0, 0, 2, 2⟩ : RectI).w = (⟨0, 0, 2, 2⟩ : RectI).h ∧
      (⟨0, 0, 2, 2⟩ : RectI).w = ((u32NextPowerOfTwo (i32ToU32 (max 2 2)) : Nat) : Int) ∧
      ∃ j : Nat, (⟨0, 0, 2, 2⟩ : RectI).w = ((2 ^ j : Nat) : Int)) := by
  have h1 : ((TextureAtlasAllocator.withLength 4).allocate 2 2).1 = some ⟨0, 0, 2, 2⟩ := by
    rw [show TextureAtlasAllocator.withLength 4 = (⟨.emptyLeaf, 4⟩ : TextureAtlasAllocator)
      from rfl, astep_1]
  exact ⟨h1, claim_c4_returned_rect_pow2_square (TextureAtlasAllocator.withLength 4)
    2 2 ⟨0, 0, 2, 2⟩ h1⟩

/-- C5: on an atlas of length 4, four successive (2,2) allocations return, in
order, the rects (0,0)-(2,2), (2,0)-(4,2), (0,2)-(2,4), (2,2)-(4,4) (children
tried top-left, top-right, bottom-left, bottom-right, first success taken); a
fifth (1,1) request on that page fails, and a `TextureAllocator` holding that
full page places the (1,1) request on a new page (index 1) at (0,0)-(1,1). -/
theorem claim_c5_scenario_s1 :
    ((TextureAtlasAllocator.withLength 4).allocAll [(2, 2), (2, 2), (2, 2), (2, 2)]).1 =
      [⟨0, 0, 2, 2⟩, ⟨2, 0, 2, 2⟩, ⟨0, 2, 2, 2⟩, ⟨2, 2, 2, 2⟩] ∧
    ((((TextureAtlasAllocator.withLength 4).allocAll
        [(2, 2), (2, 2), (2, 2), (2, 2)]).2).allocate 1 1).1 = none ∧
    (TextureAllocator.allocate
        ⟨[.atlas ((TextureAtlasAllocator.withLength 4).allocAll
          [(2, 2), (2, 2), (2, 2), (2, 2)]).2]⟩ 1 1).map Prod.fst =
      some ⟨1, ⟨0, 0, 1, 1⟩⟩ := by
  refine ⟨by rw [atlas4_allocAll_four], by rw [atlas4_allocAll_four, astep_5], ?_⟩
  rw [atlas4_allocAll_four]
  rw [TextureAllocator.allocate, if_neg (by norm_num [ATLAS_TEXTURE_LENGTH])]
  have htry : tryAtlasPages 1 1
      [.atlas ⟨.parent .fullLeaf .fullLeaf .fullLeaf .fullLeaf, 4⟩] 0 = none := by
    rw [tryAtlasPages, astep_5]
    rw [tryAtlasPages]
    rfl
  rw [htry]
  have hj : (0 : Nat) ≤ 10 := by norm_num
  obtain ⟨root1, hroot⟩ := allocate_empty_pow2 10 0 hj 0 0
  have key : TreeNode.allocate .emptyLeaf 0 0 ATLAS_TEXTURE_LENGTH
      (u32NextPowerOfTwo (i32ToU32 (max (1 : Int) 1))) = (some ⟨0, 0, 1, 1⟩, root1) := by
    rw [req_eval_11, show (ATLAS_TEXTURE_LENGTH : Nat) = 2 ^ 10 from rfl,
      show (1 : Nat) = 2 ^ 0 from rfl]
    exact hroot
  have hfresh : (TextureAtlasAllocator.withLength ATLAS_TEXTURE_LENGTH).allocate 1 1 =
      (some ⟨0, 0, 1, 1⟩, ⟨root1, ATLAS_TEXTURE_LENGTH⟩) := by
    rw [show TextureAtlasAllocator.withLength ATLAS_TEXTURE_LENGTH =
      (⟨.emptyLeaf, ATLAS_TEXTURE_LENGTH⟩ : TextureAtlasAllocator) from rfl]
    rw [TextureAtlasAllocator.allocate]
    dsimp only
    rw [key]
  rw [hfresh]
  rfl

/-- C1 witness: scenario S2 concretely — allocate (2,2) then (1,1) on a
length-4 atlas, free the two returned rects in the reversed order, and the
allocator is empty again. -/
theorem claim_c1_witness :
    ∃ a1,
      ((TextureAtlasAllocator.withLength (2 ^ 2)).allocAll [(2, 2), (1, 1)]).2.freeAll
        [⟨2, 0, 1, 1⟩, ⟨0, 0, 2, 2⟩] = some a1 ∧ a1.isEmpty = true := by
  apply claim_c1_alloc_free_roundtrip_empty 2 (by norm_num) [(2, 2), (1, 1)]
    (by decide) [⟨2, 0, 1, 1⟩, ⟨0, 0, 2, 2⟩]
  rw [show ((2 : Nat) ^ 2) = 4 from rfl, atlas4_allocAll_two]
  exact List.Perm.swap _ _ _

/-- C2 witness: the two rects returned by allocating (2,2) then (1,1) on a
fresh length-4 atlas do not overlap. -/
theorem claim_c2_witness :
    ((TextureAtlasAllocator.withLength 4).allocAll [(2, 2), (1, 1)]).1.Pairwise
      RectI.disjointWith :=
  claim_c2_allocations_pairwise_disjoint 4 [(2, 2), (1, 1)] (by decide)

/-- C9 witness: on a full (hence well-merged) length-1 atlas, a failed
allocation returns `None` and leaves the allocator unchanged. -/
theorem claim_c9_witness :
    (⟨.fullLeaf, 1⟩ : TextureAtlasAllocator).root.wellMerged = true ∧
    ((⟨.fullLeaf, 1⟩ : TextureAtlasAllocator).allocate 1 1).1 = none ∧
    ((⟨.fullLeaf, 1⟩ : TextureAtlasAllocator).allocate 1 1).2 =
      ⟨.fullLeaf, 1⟩ := by
  have hn : ((⟨.fullLeaf, 1⟩ : TextureAtlasAllocator).allocate 1 1).1 = none := by
    rw [TextureAtlasAllocator.allocate]
    dsimp only
    rw [alloc_fullLeaf_eval]
  exact ⟨rfl, hn, claim_c9_failed_allocate_unchanged ⟨.fullLeaf, 1⟩ 1 1 rfl hn⟩

/-! ### Tiler fragments (tiles.rs) -/

/-- Model of `TILE_WIDTH` from tiles.rs. -/
def TILE_WIDTH : Nat := 16

/-- Model of the Rust cast `w as i8` for an `i32` value: two's-complement
truncation to 8 bits. -/
def i32AsI8 (w : Int) : Int :=
  (w + 128) % 256 - 128

/-- The spec's claimed semantics for the backdrop write: saturation (clamp)
to the i8 range. Stated only to compare against the code's cast. -/
def clampI8 (w : Int) : Int :=
  max (-128) (min 127 w)

/-- Model of the Rust cast `f32 as i32`, which saturates. -/
def f32ToI32Sat (x : Int) : Int :=
  max (-(2 ^ 31)) (min (2 ^ 31 - 1) x)

/-- Model of tiles.rs line 215,
`let segment_tile_x = f32::floor(segment_x) as i32 / TILE_WIDTH as i32;`:
the finite `f32` value is represented by the rational it denotes
(`f32::floor` computes the exact mathematical floor, which is always
representable), and `i32` division truncates toward zero (`Int.tdiv`). -/
def segmentTileX (segment_x : ℚ) : Int :=
  Int.tdiv (f32ToI32Sat ⌊segment_x⌋) ((TILE_WIDTH : Nat) : Int)

/-- C7 counterexample: at the f32-representable x-intercept `segment_x = -8`
the code computes `segment_tile_x = 0` (truncating division), while the
claim's `floor(segment_x / TILE_WIDTH)` is `-1`. -/
theorem claim_c7_counterexample :
    segmentTileX (-8) = 0 ∧
    ⌊((-8 : ℚ) / ((TILE_WIDTH : Nat) : ℚ))⌋ = -1 ∧
    segmentTileX (-8) ≠ ⌊((-8 : ℚ) / ((TILE_WIDTH : Nat) : ℚ))⌋ := by
  have h1 : segmentTileX (-8) = 0 := by
    rw [segmentTileX, show ⌊(-8 : ℚ)⌋ = -8 from by norm_num]
    decide
  have h2 : ⌊((-8 : ℚ) / ((TILE_WIDTH : Nat) : ℚ))⌋ = -1 := by
    rw [show ((TILE_WIDTH : Nat) : ℚ) = 16 from by norm_num [TILE_WIDTH]]
    rw [show ((-8 : ℚ) / 16) = -(1 / 2) from by norm_num]
    rw [Int.floor_eq_iff]
    norm_num
  exact ⟨h1, h2, by rw [h1, h2]; decide⟩

/-- C7 (amended): for every non-negative `segment_x` whose floor fits in
`i32`, the computed `segment_tile_x` equals `floor(segment_x / TILE_WIDTH)`;
for negative non-tile-aligned intercepts the code instead truncates toward
zero (see the counterexample). -/
theorem claim_c7_amended_nonneg (sx : ℚ) (h0 : 0 ≤ sx) (h1 : ⌊sx⌋ ≤ 2 ^ 31 - 1) :
    segmentTileX sx = ⌊sx / ((TILE_WIDTH : Nat) : ℚ)⌋ := by
  have hf0 : 0 ≤ ⌊sx⌋ := Int.floor_nonneg.mpr h0
  have hsat : f32ToI32Sat ⌊sx⌋ = ⌊sx⌋ := by
    rw [f32ToI32Sat]
    omega
  rw [segmentTileX, hsat]
  have h16 : ((TILE_WIDTH : Nat) : Int) = 16 := rfl
  have h16q : ((TILE_WIDTH : Nat) : ℚ) = 16 := by norm_num [TILE_WIDTH]
  rw [h16, h16q]
  rw [Int.tdiv_eq_ediv hf0 (by norm_num)]
  symm
  rw [Int.floor_eq_iff]
  have hmod := Int.ediv_add_emod ⌊sx⌋ 16
  have hm0 : 0 ≤ ⌊sx⌋ % 16 := Int.emod_nonneg _ (by norm_num)
  have hm1 : ⌊sx⌋ % 16 < 16 := Int.emod_lt_of_pos _ (by norm_num)
  have hl : (16 : Int) * (⌊sx⌋ / 16) ≤ ⌊sx⌋ := by omega
  have hu : ⌊sx⌋ ≤ 16 * (⌊sx⌋ / 16) + 15 := by omega
  have hfl : ((⌊sx⌋ : Int) : ℚ) ≤ sx := Int.floor_le sx
  have hfu : sx < ((⌊sx⌋ : Int) : ℚ) + 1 := Int.lt_floor_add_one sx
  have hlq : ((16 * (⌊sx⌋ / 16) : Int) : ℚ) ≤ ((⌊sx⌋ : Int) : ℚ) := by exact_mod_cast hl
  have huq : ((⌊sx⌋ : Int) : ℚ) ≤ ((16 * (⌊sx⌋ / 16) + 15 : Int) : ℚ) := by exact_mod_cast hu
  push_cast at hlq huq
  constructor
  · rw [le_div_iff₀ (by norm_num : (0 : ℚ) < 16)]
    linarith
  · rw [div_lt_iff₀ (by norm_num : (0 : ℚ) < 16)]
    linarith

/-- C7 witness for the amended statement: at `segment_x = 24` the code's
value agrees with the floor of the quotient. -/
theorem claim_c7_witness :
    (0 : ℚ) ≤ 24 ∧ ⌊(24 : ℚ)⌋ ≤ 2 ^ 31 - 1 ∧
    segmentTileX 24 = ⌊(24 : ℚ) / ((TILE_WIDTH : Nat) : ℚ)⌋ :=
  ⟨by norm_num, by norm_num,
    claim_c7_amended_nonneg 24 (by norm_num) (by norm_num)⟩

/-- Model of `TileObjectPrimitive` from gpu_data.rs: `alpha_tile_index : u16`
(`0xFFFF` means solid) and `backdrop : i8`. -/
structure TileObjectPrimitive where
  alpha_tile_index : Nat
  backdrop : Int
deriving Repr, DecidableEq

/-- Model of `TileObjectPrimitive::is_solid` (`alpha_tile_index == !0`). -/
def TileObjectPrimitive.is_solid (t : TileObjectPrimitive) : Bool :=
  t.alpha_tile_index == 0xFFFF

/-- Modelled from the spec: `DenseTileMap<TileObjectPrimitive>`
(src/tile_map.rs is not under src/): a rectangular grid keyed by tile
coordinates in `[rect.origin, rect.origin + rect.size)`, stored row-major as
`data` with `rect.area()` entries. -/
structure DenseTileMap where
  data : List TileObjectPrimitive
  rect : RectI
deriving Repr, DecidableEq

/-- Modelled from the spec: the O(1) coordinate-to-linear-index map of
`DenseTileMap` (used by `BuiltObject::tile_coords_to_local_index`), `none`
outside the rect. -/
def tileCoordsToLocalIndex (rect : RectI) (x y : Int) : Option Nat :=
  if rect.ox ≤ x ∧ x < rect.ox + rect.w ∧ rect.oy ≤ y ∧ y < rect.oy + rect.h then
    some ((y - rect.oy) * rect.w + (x - rect.ox)).toNat
  else none

/-- Modelled from the spec: the inverse map of `DenseTileMap`
(used by `BuiltObject::local_tile_index_to_coords`). -/
def localTileIndexToCoords (rect : RectI) (i : Nat) : Int × Int :=
  (rect.ox + ((i % rect.w.toNat : Nat) : Int), rect.oy + ((i / rect.w.toNat : Nat) : Int))

/-- The array store `tiles.data[tile_index].backdrop = v` of tiles.rs
line 244 (a no-op out of bounds; the looked-up index is always in bounds). -/
def setBackdropAt : List TileObjectPrimitive → Nat → Int → List TileObjectPrimitive
  | [], _, _ => []
  | t :: ts, 0, b => ⟨t.alpha_tile_index, b⟩ :: ts
  | t :: ts, n + 1, b => t :: setBackdropAt ts n b

/-- Model of the backdrop-propagation loop of
`Tiler::process_old_active_edges` (tiles.rs lines 233-250): while
`current_tile_x < segment_tile_x`, look the tile up and store
`current_winding as i8` into its backdrop, then advance.
(`current_subtile_x`, reset to 0 by the loop, does not affect the tiles.) -/
def backdropLoop (rect : RectI) (tiles : List TileObjectPrimitive) (tileY : Int)
    (currentWinding : Int) (segTileX : Int) (currentTileX : Int) :
    List TileObjectPrimitive :=
  if h : currentTileX < segTileX then
    backdropLoop rect
      (match tileCoordsToLocalIndex rect currentTileX tileY with
        | some i => setBackdropAt tiles i (i32AsI8 currentWinding)
        | none => tiles)
      tileY currentWinding segTileX (currentTileX + 1)
  else tiles
termination_by (segTileX - currentTileX).toNat
decreasing_by omega

/-- C6 counterexample: with `current_winding = 128` the loop writes `-128`
(two's-complement wrap of the `as i8` cast) into the skipped tile, while the
claimed clamping would store `127`. -/
theorem claim_c6_counterexample :
    backdropLoop ⟨0, 0, 1, 1⟩ [⟨0xFFFF, 0⟩] 0 128 1 0 = [⟨0xFFFF, -128⟩] ∧
    clampI8 128 = 127 ∧ ((-128 : Int) ≠ 127) := by
  refine ⟨?_, by decide, by decide⟩
  rw [backdropLoop, dif_pos (by norm_num)]
  rw [show tileCoordsToLocalIndex ⟨0, 0, 1, 1⟩ 0 0 = some 0 from by decide]
  rw [backdropLoop, dif_neg (by norm_num)]
  decide

theorem setBackdropAt_getElem (ts : List TileObjectPrimitive) (n : Nat) (b : Int) (j : Nat) :
    (setBackdropAt ts n b)[j]? = ts[j]? ∨
    ∃ t, ts[j]? = some t ∧ (setBackdropAt ts n b)[j]? = some ⟨t.alpha_tile_index, b⟩ := by
  induction ts generalizing n j with
  | nil => left; simp [setBackdropAt]
  | cons t ts ih =>
    cases n with
    | zero =>
      cases j with
      | zero => right; exact ⟨t, by simp, by simp [setBackdropAt]⟩
      | succ j => left; simp [setBackdropAt]
    | succ n =>
      cases j with
      | zero => left; simp [setBackdropAt]
      | succ j =>
        simp only [setBackdropAt, List.getElem?_cons_succ]
        exact ih n j

theorem backdropLoop_getElem (rect : RectI) (tileY w segTileX : Int) :
    ∀ (k : Nat) (x : Int) (tiles : List TileObjectPrimitive) (j : Nat),
      (segTileX - x).toNat = k →
      (backdropLoop rect tiles tileY w segTileX x)[j]? = tiles[j]? ∨
      ∃ t, tiles[j]? = some t ∧
        (backdropLoop rect tiles tileY w segTileX x)[j]? =
          some ⟨t.alpha_tile_index, i32AsI8 w⟩ := by
  intro k
  induction k using Nat.strong_induction_on with
  | _ k IH =>
    intro x tiles j hk
    by_cases h : x < segTileX
    · have key : ∀ (ts' : List TileObjectPrimitive),
          (ts'[j]? = tiles[j]? ∨
            ∃ t, tiles[j]? = some t ∧ ts'[j]? = some ⟨t.alpha_tile_index, i32AsI8 w⟩) →
          ((backdropLoop rect ts' tileY w segTileX (x + 1))[j]? = tiles[j]? ∨
            ∃ t, tiles[j]? = some t ∧
              (backdropLoop rect ts' tileY w segTileX (x + 1))[j]? =
                some ⟨t.alpha_tile_index, i32AsI8 w⟩) := by
        intro ts' hstep
        have hrec := IH (segTileX - (x + 1)).toNat (by omega) (x + 1) ts' j rfl
        rcases hrec with hrec | ⟨t', ht'1, ht'2⟩
        · rcases hstep with hs | ⟨t, ht1, ht2⟩
          · left; rw [hrec, hs]
          · right; exact ⟨t, ht1, by rw [hrec, ht2]⟩
        · rcases hstep with hs | ⟨t, ht1, ht2⟩
          · right; refine ⟨t', ?_, ht'2⟩; rw [← hs]; exact ht'1
          · right
            refine ⟨t, ht1, ?_⟩
            rw [ht2] at ht'1
            injection ht'1 with ht'1
            rw [ht'2, ← ht'1]
      rw [backdropLoop, dif_pos h]
      apply key
      cases hidx : tileCoordsToLocalIndex rect x tileY with
      | none => left; rfl
      | some i => exact setBackdropAt_getElem tiles i (i32AsI8 w) j
    · rw [backdropLoop, dif_neg h]
      left; rfl

/-- C6 (amended): after the backdrop-propagation loop of
`Tiler::process_old_active_edges`, every tile entry is either unchanged or
has its backdrop set to `current_winding` converted by the WRAPPING
(two's-complement) `as i8` cast, not by clamping. -/
theorem claim_c6_amended (rect : RectI) (tiles : List TileObjectPrimitive)
    (tileY w segTileX x : Int) (j : Nat) :
    (backdropLoop rect tiles tileY w segTileX x)[j]? = tiles[j]? ∨
    ∃ t, tiles[j]? = some t ∧
      (backdropLoop rect tiles tileY w segTileX x)[j]? =
        some ⟨t.alpha_tile_index, i32AsI8 w⟩ :=
  backdropLoop_getElem rect tileY w segTileX (segTileX - x).toNat x tiles j rfl

/-- Modelled from the spec: `PathId` (src/renderer/src/scene.rs is not under
src/): a path id designates either a draw path or a clip path by a `u32`
index. -/
inductive PathId where
  | draw (index : Nat)
  | clip (index : Nat)
deriving Repr, DecidableEq

/-- Modelled from the spec: the fragment of `PaintMetadata`
(src/renderer/src/paint.rs is not under src/) that
`pack_and_cull_if_necessary` reads: the opacity flag. -/
structure PaintMetadata where
  isOpaque : Bool
deriving Repr, DecidableEq

/-- Model of `RenderStage` from gpu_data.rs. -/
inductive RenderStage where
  | stage0
  | stage1
deriving Repr, DecidableEq

/-- Model of `FillBatchPrimitive` from gpu_data.rs (`px : LineSegmentU4` and
`subpx : LineSegmentU8` modelled as their packed integer values). -/
structure FillBatchPrimitive where
  px : Nat
  subpx : Nat
  alpha_tile_index : Nat
deriving Repr, DecidableEq

/-- Model of `AlphaTileVertex` from gpu_data.rs; the texture-coordinate
fields `color_u/v` and `mask_u/v`, computed by floating-point scaling, are
not modelled. -/
structure AlphaTileVertex where
  tile_x : Int
  tile_y : Int
  backdrop : Int
  object_index : Nat
deriving Repr, DecidableEq

/-- The `as i16` wrapping cast on an `i32` value. -/
def i32AsI16 (w : Int) : Int := (w + 2 ^ 15) % 2 ^ 16 - 2 ^ 15

/-- Model of `AlphaTileVertex::new` (tiles.rs lines 556-584): the stored
position is `tile_origin + tile_offset` through the `as i16` casts; the
floating-point texture coordinates derived from `paint_metadata` and
`tile_index` are not modelled (the parameters are kept for the call shape). -/
def AlphaTileVertex.new (tileOrigin : Int × Int) (tileIndex : Nat)
    (tileOffset : Int × Int) (objectIndex : Nat) (backdrop : Int)
    (paintMetadata : PaintMetadata) : AlphaTileVertex :=
  ⟨i32AsI16 (tileOrigin.1 + tileOffset.1), i32AsI16 (tileOrigin.2 + tileOffset.2),
    backdrop, objectIndex⟩

/-- Model of `AlphaTile` from gpu_data.rs. -/
structure AlphaTile where
  upper_left : AlphaTileVertex
  upper_right : AlphaTileVertex
  lower_left : AlphaTileVertex
  lower_right : AlphaTileVertex
deriving Repr, DecidableEq

/-- The `AlphaTile` pushed by `pack_and_cull_if_necessary`
(tiles.rs lines 139-164): four vertices at offsets (0,0), (1,0), (0,1),
(1,1). -/
def mkAlphaTile (tileCoords : Int × Int) (tileIndex : Nat) (objectIndex : Nat)
    (backdrop : Int) (pm : PaintMetadata) : AlphaTile :=
  ⟨AlphaTileVertex.new tileCoords tileIndex (0, 0) objectIndex backdrop pm,
    AlphaTileVertex.new tileCoords tileIndex (1, 0) objectIndex backdrop pm,
    AlphaTileVertex.new tileCoords tileIndex (0, 1) objectIndex backdrop pm,
    AlphaTileVertex.new tileCoords tileIndex (1, 1) objectIndex backdrop pm⟩

/-- Model of `BuiltObject` from gpu_data.rs (the floating-point `bounds`
field is not modelled). -/
structure BuiltObject where
  fills : List FillBatchPrimitive
  tiles : DenseTileMap
  alpha_tiles : List AlphaTile
  render_stage : RenderStage
deriving Repr, DecidableEq

/-- Model of the loop of `Tiler::pack_and_cull_if_necessary`
(tiles.rs lines 121-165), walking the dense tile map from linear index `i`:
returns the `AlphaTile`s pushed and the z-buffer update events
`(tile_coords, object_index)`, each in order. -/
def packLoop (rect : RectI) (objectIndex : Nat) (pm : PaintMetadata) :
    List TileObjectPrimitive → Nat → List AlphaTile × List ((Int × Int) × Nat)
  | [], _ => ([], [])
  | tile :: rest, i =>
    if tile.is_solid && tile.backdrop == 0 then
      packLoop rect objectIndex pm rest (i + 1)
    else if tile.is_solid && pm.isOpaque then
      ((packLoop rect objectIndex pm rest (i + 1)).1,
        (localTileIndexToCoords rect i, objectIndex) ::
          (packLoop rect objectIndex pm rest (i + 1)).2)
    else
      (mkAlphaTile (localTileIndexToCoords rect i) tile.alpha_tile_index
          objectIndex tile.backdrop pm ::
          (packLoop rect objectIndex pm rest (i + 1)).1,
        (packLoop rect objectIndex pm rest (i + 1)).2)

/-- Model of `Tiler::pack_and_cull_if_necessary` (tiles.rs lines 111-166):
on a draw path with paint metadata the loop's `AlphaTile`s are appended to
`alpha_tiles`, with `object_index = index as u16`, and the z-buffer events
are issued; otherwise it returns at once. -/
def packAndCullIfNecessary (pathId : PathId) (pmOpt : Option PaintMetadata)
    (bo : BuiltObject) : BuiltObject × List ((Int × Int) × Nat) :=
  match pathId, pmOpt with
  | .draw index, some pm =>
    ({ bo with alpha_tiles := bo.alpha_tiles ++
        (packLoop bo.tiles.rect (index % 65536) pm bo.tiles.data 0).1 },
      (packLoop bo.tiles.rect (index % 65536) pm bo.tiles.data 0).2)
  | _, _ => (bo, [])

theorem packLoop_eq (rect : RectI) (oi : Nat) (pm : PaintMetadata) :
    ∀ (ts : List TileObjectPrimitive) (i : Nat),
      packLoop rect oi pm ts i =
        ((List.enumFrom i ts).filterMap fun p =>
            if p.2.is_solid && (p.2.backdrop == 0 || pm.isOpaque) then none
            else some (mkAlphaTile (localTileIndexToCoords rect p.1)
              p.2.alpha_tile_index oi p.2.backdrop pm),
          (List.enumFrom i ts).filterMap fun p =>
            if p.2.is_solid && !(p.2.backdrop == 0) && pm.isOpaque then
              some (localTileIndexToCoords rect p.1, oi)
            else none) := by
  intro ts
  induction ts with
  | nil => intro i; rfl
  | cons t ts ih =>
    intro i
    by_cases h1 : t.is_solid = true <;> by_cases h2 : t.backdrop = 0 <;>
      by_cases h3 : pm.isOpaque = true <;>
      simp [packLoop, List.enumFrom, h1, h2, h3, ih]

/-- C8: on a draw path with paint metadata, `pack_and_cull_if_necessary`
processes each tile as follows: a solid tile (`alpha_tile_index == 0xFFFF`)
with backdrop 0 contributes neither an `AlphaTile` nor a z-buffer event; a
solid tile with nonzero backdrop and opaque paint contributes exactly one
z-buffer event `(tile_coords, object_index)` and no `AlphaTile`; every other
tile contributes exactly one `AlphaTile` quad, whose four vertices are built
with offsets (0,0), (1,0), (0,1), (1,1). -/
theorem claim_c8_pack_and_cull_cases (index : Nat) (pm : PaintMetadata)
    (bo : BuiltObject) :
    packAndCullIfNecessary (.draw index) (some pm) bo =
      ({ bo with alpha_tiles := bo.alpha_tiles ++
          ((List.enumFrom 0 bo.tiles.data).filterMap fun p =>
            if p.2.is_solid && (p.2.backdrop == 0 || pm.isOpaque) then none
            else some (mkAlphaTile (localTileIndexToCoords bo.tiles.rect p.1)
              p.2.alpha_tile_index (index % 65536) p.2.backdrop pm)) },
        (List.enumFrom 0 bo.tiles.data).filterMap fun p =>
          if p.2.is_solid && !(p.2.backdrop == 0) && pm.isOpaque then
            some (localTileIndexToCoords bo.tiles.rect p.1, index % 65536)
          else none) ∧
    (∀ tc ti oi b,
      mkAlphaTile tc ti oi b pm =
        ⟨AlphaTileVertex.new tc ti (0, 0) oi b pm,
          AlphaTileVertex.new tc ti (1, 0) oi b pm,
          AlphaTileVertex.new tc ti (0, 1) oi b pm,
          AlphaTileVertex.new tc ti (1, 1) oi b pm⟩ ∧
      (mkAlphaTile tc ti oi b pm).upper_left.tile_x = i32AsI16 (tc.1 + 0) ∧
      (mkAlphaTile tc ti oi b pm).upper_left.tile_y = i32AsI16 (tc.2 + 0) ∧
      (mkAlphaTile tc ti oi b pm).upper_right.tile_x = i32AsI16 (tc.1 + 1) ∧
      (mkAlphaTile tc ti oi b pm).upper_right.tile_y = i32AsI16 (tc.2 + 0) ∧
      (mkAlphaTile tc ti oi b pm).lower_left.tile_x = i32AsI16 (tc.1 + 0) ∧
      (mkAlphaTile tc ti oi b pm).lower_left.tile_y = i32AsI16 (tc.2 + 1) ∧
      (mkAlphaTile tc ti oi b pm).lower_right.tile_x = i32AsI16 (tc.1 + 1) ∧
      (mkAlphaTile tc ti oi b pm).lower_right.tile_y = i32AsI16 (tc.2 + 1)) := by
  constructor
  · show ({ bo with alpha_tiles := bo.alpha_tiles ++
        (packLoop bo.tiles.rect (index % 65536) pm bo.tiles.data 0).1 },
      (packLoop bo.tiles.rect (index % 65536) pm bo.tiles.data 0).2) = _
    rw [packLoop_eq]
  · intro tc ti oi b
    exact ⟨rfl, rfl, rfl, rfl, rfl, rfl, rfl, rfl, rfl⟩

/-- C10: when the path id is not a draw path or the paint metadata is
absent, `pack_and_cull_if_necessary` returns immediately: the `BuiltObject`
is returned unchanged in every field and no z-buffer event is issued. -/
theorem claim_c10_early_return (pathId : PathId) (pmOpt : Option PaintMetadata)
    (bo : BuiltObject)
    (h : (∀ i, pathId ≠ .draw i) ∨ pmOpt = none) :
    packAndCullIfNecessary pathId pmOpt bo = (bo, []) := by
  match pathId, pmOpt with
  | .draw i, some pm =>
    rcases h with h | h
    · exact absurd rfl (h i)
    · exact Option.noConfusion h
  | .draw i, none => rfl
  | .clip i, some pm => rfl
  | .clip i, none => rfl

/-- C10 witness: the clip-path case at a concrete `BuiltObject`. -/
theorem claim_c10_witness :
    ((∀ i, PathId.clip 0 ≠ PathId.draw i) ∨
      (some ⟨true⟩ : Option PaintMetadata) = none) ∧
    packAndCullIfNecessary (.clip 0) (some ⟨true⟩)
        ⟨[], ⟨[⟨0xFFFF, 1⟩], ⟨0, 0, 1, 1⟩⟩, [], .stage0⟩ =
      (⟨[], ⟨[⟨0xFFFF, 1⟩], ⟨0, 0, 1, 1⟩⟩, [], .stage0⟩, []) :=
  ⟨Or.inl fun i h => PathId.noConfusion h,
    claim_c10_early_return (.clip 0) (some ⟨true⟩)
      ⟨[], ⟨[⟨0xFFFF, 1⟩], ⟨0, 0, 1, 1⟩⟩, [], .stage0⟩
      (Or.inl fun i h => PathId.noConfusion h)⟩
